import Mathlib

/-!
Verification of the Gantt chart layout engine (`src/src/lib.rs`).

The development shallowly embeds `process_chart_data` and `render_chart`.
Calendar dates (`chrono::NaiveDate`) are modeled as year/month/day triples
with day-number arithmetic (the standard civil-calendar conversion, which is
what `chrono` implements); `f32` arithmetic is idealized as exact rational
arithmetic; the fallible `Duration::try_days(..).unwrap()` calls are modeled
in an `Option` layer where `none` stands for a panic.
-/

namespace GanttChart

/-- Leap year per the Gregorian rules (as `chrono` computes it). -/
def isLeapYear (y : Int) : Bool :=
  (y % 4 == 0 && y % 100 != 0) || y % 400 == 0

/-- Day count of month `m` (1-12) of year `y`; 0 for out-of-range months. -/
def daysInMonthTable (y : Int) (m : Nat) : Nat :=
  match m with
  | 1 => 31 | 2 => if isLeapYear y then 29 else 28 | 3 => 31
  | 4 => 30 | 5 => 31 | 6 => 30 | 7 => 31 | 8 => 31
  | 9 => 30 | 10 => 31 | 11 => 30 | 12 => 31
  | _ => 0

/-- A calendar date: the year/month/day view of `chrono::NaiveDate`. -/
structure NDate where
  y : Int
  m : Nat
  d : Nat
deriving DecidableEq, Repr

/-- A structurally valid Gregorian date. -/
def NDate.Valid (x : NDate) : Prop :=
  1 ≤ x.m ∧ x.m ≤ 12 ∧ 1 ≤ x.d ∧ x.d ≤ daysInMonthTable x.y x.m

instance (x : NDate) : Decidable x.Valid := by
  unfold NDate.Valid; infer_instance

/-- Strict chronological order; `chrono`'s `Ord` on valid dates is the
lexicographic order on (year, month, day). -/
def NDate.ltb (a b : NDate) : Bool :=
  a.y < b.y || (a.y == b.y && (a.m < b.m || (a.m == b.m && a.d < b.d)))

/-- Non-strict chronological order. -/
def NDate.leb (a b : NDate) : Bool :=
  a.y < b.y || (a.y == b.y && (a.m < b.m || (a.m == b.m && a.d ≤ b.d)))

/-- Days since 1970-01-01 (the standard `days_from_civil` algorithm; this is
how `chrono` relates a calendar date to a linear day count). -/
def NDate.toDayNum (x : NDate) : Int :=
  let yy : Int := if x.m ≤ 2 then x.y - 1 else x.y
  let era : Int := Int.fdiv yy 400
  let yoe : Nat := (yy - era * 400).toNat
  let mp : Nat := if 2 < x.m then x.m - 3 else x.m + 9
  let doy : Nat := (153 * mp + 2) / 5 + x.d - 1
  let doe : Nat := yoe * 365 + yoe / 4 - yoe / 100 + doy
  era * 146097 + (doe : Int) - 719468

/-- Weekday index: 0 = Monday, ..., 5 = Saturday, 6 = Sunday
(1970-01-01 was a Thursday, index 3). -/
def NDate.weekday (x : NDate) : Int :=
  (x.toDayNum + 3) % 7

/-- The calendar successor (`chrono`'s `succ_opt`), structurally. -/
def NDate.succ (x : NDate) : NDate :=
  if x.d < daysInMonthTable x.y x.m then ⟨x.y, x.m, x.d + 1⟩
  else if x.m < 12 then ⟨x.y, x.m + 1, 1⟩
  else ⟨x.y + 1, 1, 1⟩

/-- The calendar predecessor (`chrono`'s `pred_opt`), structurally. -/
def NDate.pred (x : NDate) : NDate :=
  if 1 < x.d then ⟨x.y, x.m, x.d - 1⟩
  else if 1 < x.m then ⟨x.y, x.m - 1, daysInMonthTable x.y (x.m - 1)⟩
  else ⟨x.y - 1, 12, 31⟩

/-- Move `n` calendar days forward. -/
def NDate.addNat : NDate → Nat → NDate
  | x, 0 => x
  | x, Nat.succ k => NDate.addNat x.succ k

/-- Move `n` calendar days backward. -/
def NDate.subNat : NDate → Nat → NDate
  | x, 0 => x
  | x, Nat.succ k => NDate.subNat x.pred k

/-- Model of `date + Duration::days(n)`: the date `n` calendar days away. -/
def NDate.addDays (x : NDate) (n : Int) : NDate :=
  if 0 ≤ n then x.addNat n.toNat else x.subNat (-n).toNat

/-- Model of `chrono::NaiveDate::MAX` (262143-12-31). -/
def dateMAX : NDate := ⟨262143, 12, 31⟩

/-- Model of `chrono::NaiveDate::MIN` (-262144-01-01). -/
def dateMIN : NDate := ⟨-262144, 1, 1⟩

/-- Largest day count accepted by `chrono::TimeDelta::try_days`
(`i64::MAX` milliseconds, in whole days). -/
def TRY_DAYS_MAX : Int := 106751991167

/-- Model of `Duration::try_days(n)`: `none` models the library returning `None`
(and hence the `unwrap()` in the source panicking). -/
def tryDays (n : Int) : Option Int :=
  if -TRY_DAYS_MAX ≤ n ∧ n ≤ TRY_DAYS_MAX then some n else none

/-- Function `num_days_in_month` from `process_chart_data`: the day of the date one
day before the first day of the following month. -/
def num_days_in_month (year : Int) (month : Nat) : Nat :=
  let p : Int × Nat := if month == 12 then (year + 1, 1) else (year, month + 1)
  (NDate.pred ⟨p.1, p.2, 1⟩).d

/-! ## Input data model (`ItemData`, `ChartData`) -/

/-- One schedule item (`ItemData` in the source; `open` is renamed
`openFlag` because `open` is a Lean keyword). -/
structure ItemData where
  title : String
  duration : Option Int
  start_date : Option NDate
  resource_index : Option Nat
  openFlag : Option Bool
deriving DecidableEq, Repr

/-- The whole schedule description (`ChartData`). -/
structure ChartData where
  title : String
  marked_date : Option NDate
  resources : List String
  items : List ItemData
deriving DecidableEq, Repr

/-! ## Geometry/style model (`RenderData`) -/

/-- Four-sided inset (`Gutter`). -/
structure Gutter where
  left : Rat
  top : Rat
  right : Rat
  bottom : Rat
deriving DecidableEq, Repr

def Gutter.height (g : Gutter) : Rat := g.bottom + g.top

def Gutter.width (g : Gutter) : Rat := g.right + g.left

/-- One chart row (`RowRenderData`); `length = none` marks a milestone. -/
structure RowRenderData where
  title : String
  resource_index : Nat
  offset : Rat
  length : Option Rat
  openFlag : Bool
deriving DecidableEq, Repr

/-- One month column (`ColumnRenderData`). -/
structure ColumnRenderData where
  width : Rat
  month_name : String
deriving DecidableEq, Repr

/-- The resolved geometry/style model (`RenderData`). -/
structure RenderData where
  title : String
  gutter : Gutter
  row_gutter : Gutter
  row_height : Rat
  resource_gutter : Gutter
  resource_height : Rat
  marked_date_offset : Option Rat
  title_width : Rat
  max_month_width : Rat
  rect_corner_radius : Rat
  styles : List String
  cols : List ColumnRenderData
  rows : List RowRenderData
  resources : List String
deriving DecidableEq, Repr

/-- The three validation failures of the layout engine.  The source reports
them as error strings; the spec groups the two `missing*` ones as
`MissingAnchor`. -/
inductive LayoutErr where
  | tooFewItems
  | missingStartDate
  | missingResourceIndex
  | resourceIndexOutOfRange
deriving DecidableEq, Repr

/-- The spec's `MissingAnchor` covers both anchor-field error strings. -/
def LayoutErr.isMissingAnchor : LayoutErr → Bool
  | .missingStartDate => true
  | .missingResourceIndex => true
  | _ => false

/-! ## The date-range scan (first loop of `process_chart_data`) -/

/-- The mutable locals of the scan loop: the running minimum `start_date`
(initially `NaiveDate::MAX`), the running maximum `end_date` (initially
`NaiveDate::MIN`) and the running current date `date`. -/
structure ScanSt where
  start_date : NDate
  end_date : NDate
  date : NDate
deriving DecidableEq, Repr

/-- Weekend skipping (spec 4.1): the weekend-skipping match of lines
289-293 — Saturday advances 2 days, Sunday 1 day. -/
def skipWeekendStart (s : NDate) : NDate :=
  if s.weekday = 5 then s.addDays 2
  else if s.weekday = 6 then s.addDays 1
  else s

/-- Start-date handling for one item (lines 284-299 of `lib.rs`): set the
running date, fold the weekend-skipped candidate into the minimum, and
require item 0 to carry a start date. -/
def startPhase (i : Nat) (st : ScanSt) (item : ItemData) :
    Except LayoutErr ScanSt :=
  match item.start_date with
  | some s =>
    if NDate.ltb s st.start_date then
      Except.ok { start_date := skipWeekendStart s, end_date := st.end_date, date := s }
    else Except.ok { st with date := s }
  | none => if i = 0 then Except.error LayoutErr.missingStartDate else Except.ok st

/-- Duration handling for one item (lines 301-315): compute the
weekend-adjusted shadow duration relative to the running date and advance
the running date by it.  `none` models a panicking `unwrap()` on
`Duration::try_days`. -/
def durPhase (st : ScanSt) (item : ItemData) : Option (ScanSt × Option Int) :=
  match item.duration with
  | some item_days =>
    match tryDays item_days with
    | none => none
    | some td =>
      match (if (st.date.addDays td).weekday = 5 then tryDays (item_days + 2)
             else if (st.date.addDays td).weekday = 6 then tryDays (item_days + 1)
             else tryDays item_days) with
      | none => none
      | some dur => some ({ st with date := st.date.addDays dur }, some dur)
  | none => some (st, none)

/-- End-date tracking (lines 317-319). -/
def endPhase (st : ScanSt) : ScanSt :=
  if NDate.ltb st.end_date st.date then { st with end_date := st.date } else st

/-- Resource-index checks for one item (lines 321-329): `some e` is the
error raised, `none` means the checks pass. -/
def resPhase (rlen : Nat) (i : Nat) (item : ItemData) : Option LayoutErr :=
  match item.resource_index with
  | some ri => if rlen ≤ ri then some LayoutErr.resourceIndexOutOfRange else none
  | none => if i = 0 then some LayoutErr.missingResourceIndex else none

/-- The whole scan loop (lines 283-330), also collecting the per-item shadow
durations.  The outer `Option` is the panic layer. -/
def scanItems (rlen : Nat) :
    Nat → ScanSt → List ItemData → Option (Except LayoutErr (ScanSt × List (Option Int)))
  | _, st, [] => some (Except.ok (st, []))
  | i, st, item :: rest =>
    match startPhase i st item with
    | Except.error e => some (Except.error e)
    | Except.ok st1 =>
      match durPhase st1 item with
      | none => none
      | some (st2, sh) =>
        match resPhase rlen i item with
        | some e => some (Except.error e)
        | none =>
          match scanItems rlen (i + 1) (endPhase st2) rest with
          | none => none
          | some (Except.error e) => some (Except.error e)
          | some (Except.ok (stF, shs)) => some (Except.ok (stF, sh :: shs))

/-! ## Month columns (second loop of `process_chart_data`) -/

/-- Lookup in `MONTH_NAMES[m - 1]` (the static array at the top of `lib.rs`). -/
def monthName (m : Nat) : String :=
  List.getD ["Jan", "Feb", "Mar", "Apr", "May", "Jun",
             "Jul", "Aug", "Sep", "Oct", "Nov", "Dec"] (m - 1) ""

/-- The column loop's step to the first day of the next month
(lines 359-364). -/
def nextMonthFirst (x : NDate) : NDate :=
  ⟨x.y + (if x.m = 12 then 1 else 0), x.m % 12 + 1, 1⟩

/-- Linear month index used to measure the column loop. -/
def monthIdx (x : NDate) : Int := 12 * x.y + (x.m : Int)

/-- The `while date <= end_date` column loop (lines 347-365), fuelled; each
iteration emits the loop's current `date`.  The fuel (chosen in
`monthsLoop`) strictly dominates the number of iterations. -/
def monthsLoopF : Nat → NDate → NDate → List NDate
  | 0, _, _ => []
  | Nat.succ k, cur, fin =>
    if NDate.leb cur fin then cur :: monthsLoopF k (nextMonthFirst cur) fin else []

/-- The sequence of first-of-month loop dates from `cur` to `fin`. -/
def monthsLoop (cur fin : NDate) : List NDate :=
  monthsLoopF ((monthIdx fin - 12 * cur.y).toNat + 2) cur fin

/-- Project start snapped down to the first day of its month (line 332). -/
def normStart (st : ScanSt) : NDate := ⟨st.start_date.y, st.start_date.m, 1⟩

/-- Project end snapped up to the last day of its month (lines 333-338). -/
def normEnd (st : ScanSt) : NDate :=
  ⟨st.end_date.y, st.end_date.m, num_days_in_month st.end_date.y st.end_date.m⟩

/-- The months the (normalized) project range spans. -/
def monthsOf (st : ScanSt) : List NDate := monthsLoop (normStart st) (normEnd st)

/-- Model of `num_item_days`: total day count over all columns. -/
def numItemDays (st : ScanSt) : Nat :=
  ((monthsOf st).map (fun x => num_days_in_month x.y x.m)).sum

/-- The column list: each month's width is
`max_month_width * num_days_in_month / 31` (lines 348-357). -/
def colsOf (max_month_width : Rat) (st : ScanSt) : List ColumnRenderData :=
  (monthsOf st).map (fun x =>
    { width := max_month_width * ((num_days_in_month x.y x.m : Nat) : Rat) / 31,
      month_name := monthName x.m })

/-- Model of `all_items_width`: total pixel width of all columns. -/
def allItemsWidth (max_month_width : Rat) (st : ScanSt) : Rat :=
  ((colsOf max_month_width st).map (fun c => c.width)).sum

/-! ## Row construction (third loop of `process_chart_data`) -/

/-- The length/date-advance part of one row step (lines 404-410): a shadow
duration yields a bar length `shadow / num_item_days * all_items_width` and
advances the running date; a milestone leaves both untouched.  `none`
models the panicking `unwrap()` on `Duration::try_days` at line 408. -/
def rowAdvance (date1 : NDate) (nid : Nat) (aiw : Rat) :
    Option Int → Option (NDate × Option Rat)
  | some item_days =>
    (tryDays item_days).map (fun td =>
      (date1.addDays td,
        some (((item_days : Int) : Rat) / ((nid : Nat) : Rat) * aiw)))
  | none => some (date1, none)

/-- The row loop (lines 394-423), walking items zipped with their shadow
durations, carrying the running date and resource index. -/
def rowsLoop (title_width gutter_left : Rat) (sd : NDate) (nid : Nat) (aiw : Rat) :
    NDate → Nat → List (ItemData × Option Int) → Option (List RowRenderData)
  | _, _, [] => some []
  | date0, res0, (item, sh) :: rest =>
    match rowAdvance (item.start_date.getD date0) nid aiw sh with
    | none => none
    | some (date2, len) =>
      match rowsLoop title_width gutter_left sd nid aiw date2
          (item.resource_index.getD res0) rest with
      | none => none
      | some rows =>
        some ({ title := item.title
                resource_index := item.resource_index.getD res0
                offset := title_width + gutter_left
                  + ((((item.start_date.getD date0).toDayNum - sd.toDayNum : Int) : Rat)
                      / ((nid : Nat) : Rat)) * aiw
                length := len
                openFlag := item.openFlag.getD false } :: rows)

/-! ## Colors and styles -/

/-- The f32 constant `0.618034` (golden-ratio conjugate). -/
def GOLDEN_RATIO_CONJUGATE : Rat := 618034 / 1000000

/-- HSV to 24-bit RGB (`hsv_to_rgb`); the `as usize` / `as u32` casts
truncate, which for these non-negative values is `floor`. -/
def hsv_to_rgb (h s v : Rat) : Nat :=
  let h_i : Nat := (Int.floor (h * 6)).toNat
  let f : Rat := h * 6 - ((h_i : Nat) : Rat)
  let p : Rat := v * (1 - s)
  let q : Rat := v * (1 - f * s)
  let t : Rat := v * (1 - (1 - f) * s)
  let rgb : Rat → Rat → Rat → Nat := fun r g b =>
    (Int.floor (r * 256)).toNat * 65536 + (Int.floor (g * 256)).toNat * 256
      + (Int.floor (b * 256)).toNat
  if h_i = 0 then rgb v t p
  else if h_i = 1 then rgb q v p
  else if h_i = 2 then rgb p v t
  else if h_i = 3 then rgb p q v
  else if h_i = 4 then rgb t p v
  else rgb v p q

/-- Formatting as in Rust's 06x: lowercase hex, zero-padded to six digits. -/
def toHex6 (n : Nat) : String :=
  let s := (Nat.toDigits 16 n).asString
  String.mk (List.replicate (6 - s.length) '0') ++ s

/-- Model of `h % 1.0` for non-negative `h`. -/
def fmod1 (x : Rat) : Rat := x - ((Int.floor x : Int) : Rat)

/-- The per-resource style loop (lines 447-458): two rules per resource,
hue advanced by the golden-ratio conjugate modulo 1. -/
def resourceStylesGo (h : Rat) : Nat → Nat → List String
  | _, 0 => []
  | i, Nat.succ k =>
    let rgb := toHex6 (hsv_to_rgb h (1/2) (1/2))
    (".resource-" ++ toString i ++ "-closed\x7bstroke-width:1; stroke:#" ++ rgb
        ++ "; fill:#" ++ rgb ++ ";\x7d")
      :: (".resource-" ++ toString i ++ "-open\x7bstroke-width:2; stroke:#" ++ rgb
        ++ "; fill:none;\x7d")
      :: resourceStylesGo (fmod1 (h + GOLDEN_RATIO_CONJUGATE)) (i + 1) k

/-- The nine fixed structural style rules (lines 431-441). -/
def baseStyles : List String :=
  [".outer-lines\x7b stroke-width:3; stroke:#aaaaaa;\x7d",
   ".inner-lines\x7b stroke-width:2; stroke:#dddddd;\x7d",
   ".item\x7bfont-family:Arial; font-size:12pt; dominant-baseline:middle;\x7d",
   ".resource\x7bfont-family:Arial; font-size:12pt; text-anchor:end; dominant-baseline:middle;\x7d",
   ".title\x7bfont-family:Arial; font-size:18pt;\x7d",
   ".heading\x7bfont-family:Arial; font-size:16pt; dominant-baseline:middle; text-anchor:middle;\x7d",
   ".task-heading\x7bdominant-baseline:middle; text-anchor:start;\x7d",
   ".milestone\x7bfill:black;stroke-width:1;stroke:black;\x7d",
   ".marker\x7bstroke-width:2; stroke:#888888; stroke-dasharray:7;\x7d"]

/-! ## `process_chart_data` -/

/-- The layout engine (`process_chart_data`).  `seed` models the one value
drawn from `rand::thread_rng()` at line 445 (an `f32` in `[0,1)`); the
outer `Option` is `none` exactly when the source would panic on an
`unwrap()` modeled above. -/
def process_chart_data (title_width max_month_width seed : Rat)
    (chart_data : ChartData) : Option (Except LayoutErr RenderData) :=
  if chart_data.items.length < 2 then some (Except.error LayoutErr.tooFewItems)
  else
    match scanItems chart_data.resources.length 0 ⟨dateMAX, dateMIN, dateMIN⟩
        chart_data.items with
    | none => none
    | some (Except.error e) => some (Except.error e)
    | some (Except.ok (st, shadows)) =>
      let start_date := normStart st
      let num_item_days := numItemDays st
      let cols := colsOf max_month_width st
      let all_items_width := allItemsWidth max_month_width st
      let gutter : Gutter := ⟨10, 80, 10, 10⟩
      let row_gutter : Gutter := ⟨5, 5, 5, 5⟩
      let row_height : Rat := row_gutter.height + 20
      let resource_gutter : Gutter := ⟨10, 10, 10, 10⟩
      let resource_height : Rat := resource_gutter.height + 20
      match rowsLoop title_width gutter.left start_date num_item_days all_items_width
          start_date 0 (chart_data.items.zip shadows) with
      | none => none
      | some rows =>
        let marked_date_offset := chart_data.marked_date.map (fun d =>
          title_width + gutter.left
            + (((d.toDayNum - start_date.toDayNum : Int) : Rat)
                / ((num_item_days : Nat) : Rat)) * all_items_width)
        some (Except.ok
          { title := chart_data.title
            gutter := gutter
            row_gutter := row_gutter
            row_height := row_height
            resource_gutter := resource_gutter
            resource_height := resource_height
            marked_date_offset := marked_date_offset
            title_width := title_width
            max_month_width := max_month_width
            rect_corner_radius := 3
            styles := baseStyles ++ resourceStylesGo seed 0 chart_data.resources.length
            cols := cols
            rows := rows
            resources := chart_data.resources })

/-! ## The diagram assembler (`render_chart`)

The `svg` crate's element tree is modeled as `SvgNode`; its text
serialization is an external collaborator (out of the core), so the
assembled document tree is the assembler's output here. -/

/-- A drawable primitive with the attributes the source sets on it. -/
inductive SvgNode where
  | styleNode (rules : List String)
  | textNode (cls : String) (x y : Rat) (content : String)
  | lineNode (cls : String) (x1 y1 x2 y2 : Rat)
  | rectNode (cls : String) (x y rx ry w h : Rat)
  | pathNode (mx my : Rat) (segs : List (Rat × Rat))
deriving DecidableEq, Repr

/-- The assembled document: `Document` with width/height/viewBox, its
children in the source's append order (the two `Group` nodes are the
`rowLayer`/`colLayer` fields, the optional marker line and legend group the
last two fields). -/
structure SvgDoc where
  width : Rat
  height : Rat
  styleBlock : SvgNode
  rowLayer : List SvgNode
  colLayer : List SvgNode
  tasksHeader : SvgNode
  chartTitle : SvgNode
  marker : Option SvgNode
  legend : Option (List SvgNode)
deriving DecidableEq, Repr

/-- The three nodes of one row (lines 509-563): title text, bar rectangle
or milestone diamond, horizontal divider. -/
def rowNodes (chart : RenderData) (x1 x2 : Rat) (i : Nat) (row : RowRenderData) :
    List SvgNode :=
  let y := chart.gutter.top + ((i : Nat) : Rat) * chart.row_height
  let line_class := if i = 0 then "outer-lines" else "inner-lines"
  [SvgNode.textNode "item" (chart.gutter.left + chart.row_gutter.left)
      (y + chart.row_gutter.top + chart.row_height / 2) row.title]
    ++ (match row.length with
        | some len =>
          [SvgNode.rectNode
            ("resource-" ++ toString row.resource_index
              ++ (if row.openFlag then "-open" else "-closed"))
            row.offset (y + chart.row_gutter.top)
            chart.rect_corner_radius chart.rect_corner_radius
            len (chart.row_height - chart.row_gutter.height)]
        | none =>
          let n := (chart.row_height - chart.row_gutter.height) / 2
          [SvgNode.pathNode (row.offset - n) (y + chart.row_gutter.top + n)
            [(n, -n), (n, n), (-n, n), (-n, -n)]])
    ++ [SvgNode.lineNode line_class x1 y x2 y]

/-- The row layer loop, indexed from `i`. -/
def rowLayerGo (chart : RenderData) (x1 x2 : Rat) :
    Nat → List RowRenderData → List SvgNode
  | _, [] => []
  | i, row :: rest => rowNodes chart x1 x2 i row ++ rowLayerGo chart x1 x2 (i + 1) rest

/-- The row layer: all rows plus the closing outer divider (lines 564-575). -/
def rowLayer (chart : RenderData) (x1 x2 : Rat) : List SvgNode :=
  rowLayerGo chart x1 x2 0 chart.rows
    ++ [SvgNode.lineNode "outer-lines" x1
          (chart.gutter.top + ((chart.rows.length : Nat) : Rat) * chart.row_height) x2
          (chart.gutter.top + ((chart.rows.length : Nat) : Rat) * chart.row_height)]

/-- The left pixel edge of column `i`:
`gutter.left + title_width + sum of the widths of the columns before it`
(lines 583-585). -/
def colLeftEdge (chart : RenderData) (i : Nat) : Rat :=
  chart.gutter.left + chart.title_width
    + ((chart.cols.take i).map (fun c => c.width)).sum

/-- The y-coordinate of the month labels (line 586). -/
def colNameY (chart : RenderData) : Rat :=
  chart.gutter.top - chart.row_gutter.bottom - chart.row_height / 2

/-- The two nodes of one column (lines 588-602): the month label (placed at
`line_x + max_month_width / 2`, note: not the column's own width) and the
vertical divider at the column's left edge. -/
def colNodes (chart : RenderData) (y2 : Rat) (i : Nat) (col : ColumnRenderData) :
    List SvgNode :=
  [SvgNode.textNode "heading" (colLeftEdge chart i + chart.max_month_width / 2)
      (colNameY chart) col.month_name,
   SvgNode.lineNode "inner-lines" (colLeftEdge chart i) chart.gutter.top
      (colLeftEdge chart i) y2]

/-- The column layer loop, indexed from `i`. -/
def colLayerGo (chart : RenderData) (y2 : Rat) :
    Nat → List ColumnRenderData → List SvgNode
  | _, [] => []
  | i, col :: rest => colNodes chart y2 i col ++ colLayerGo chart y2 (i + 1) rest

/-- The column layer: all columns plus the trailing divider at the right
edge of the title area (lines 604-615). -/
def colLayer (chart : RenderData) (y2 : Rat) : List SvgNode :=
  colLayerGo chart y2 0 chart.cols
    ++ [SvgNode.lineNode "inner-lines" (chart.gutter.left + chart.title_width)
          chart.gutter.top (chart.gutter.left + chart.title_width) y2]

/-- One legend entry (lines 660-685): resource label and color swatch. -/
def legendNodes (chart : RenderData) (i : Nat) (res : String) : List SvgNode :=
  let y := chart.gutter.top + ((chart.rows.length : Nat) : Rat) * chart.row_height
  let block_width := chart.resource_height - chart.resource_gutter.height
  [SvgNode.textNode "resource"
      (chart.resource_gutter.left + (((i + 1 : Nat)) : Rat) * 100 - 5)
      (y + chart.resource_height / 2) res,
   SvgNode.rectNode ("resource-" ++ toString i ++ "-closed")
      (chart.resource_gutter.left + (((i + 1 : Nat)) : Rat) * 100 + 5)
      (y + chart.resource_gutter.top)
      chart.rect_corner_radius chart.rect_corner_radius block_width block_width]

/-- The legend layer loop. -/
def legendGo (chart : RenderData) : Nat → List String → List SvgNode
  | _, [] => []
  | i, res :: rest => legendNodes chart i res ++ legendGo chart (i + 1) rest

/-- The diagram assembler (`render_chart`): canvas size and the fixed node
order — style block, row layer, column layer, "Tasks" header, chart title,
optional date marker, optional legend. -/
def render_chart (use_legend : Bool) (chart : RenderData) : SvgDoc :=
  let width : Rat := chart.gutter.left + chart.title_width
    + (chart.cols.map (fun c => c.width)).sum + chart.gutter.right
  let height : Rat := chart.gutter.top
    + ((chart.rows.length : Nat) : Rat) * chart.row_height
    + (if use_legend then chart.resource_gutter.height + chart.row_height else 0)
    + chart.gutter.bottom
  let x1 := chart.gutter.left
  let x2 := width - chart.gutter.right
  let y2 := chart.gutter.top + ((chart.rows.length : Nat) : Rat) * chart.row_height
  { width := width
    height := height
    styleBlock := SvgNode.styleNode chart.styles
    rowLayer := rowLayer chart x1 x2
    colLayer := colLayer chart y2
    tasksHeader := SvgNode.textNode "heading task-heading"
      (chart.gutter.left + chart.row_gutter.left)
      (chart.gutter.top - chart.row_gutter.bottom - chart.row_height / 2) "Tasks"
    chartTitle := SvgNode.textNode "title" chart.gutter.left 25 chart.title
    marker := chart.marked_date_offset.map (fun offset =>
      SvgNode.lineNode "marker" offset (chart.gutter.top - 5) offset
        (chart.gutter.top + ((chart.rows.length : Nat) : Rat) * chart.row_height + 5))
    legend := if use_legend then some (legendGo chart 0 chart.resources) else none }

/-! ## Spec-side characterizations

Definitions in this section follow the wording of the specification (not
the source); the claim theorems below relate the embedded source functions
to them. -/

/-- Spec 4.1, `weekendAdjustedDuration(anchorDate, days)`: `days + 2` when
`anchorDate + days` lands on a Saturday, `days + 1` on a Sunday, `days`
otherwise. -/
def weekendAdjustedDuration (a : NDate) (days : Int) : Int :=
  if (a.addDays days).weekday = 5 then days + 2
  else if (a.addDays days).weekday = 6 then days + 1
  else days

/-- Spec step 2 (per-item shadow durations): walking the items with the
running current date, each item with a duration records the
weekend-adjusted duration computed against the running date (after the
item's own explicit start, if any, replaced it) and advances the running
date by that shadow duration; milestones record nothing. -/
def specShadows : NDate → List ItemData → List (Option Int)
  | _, [] => []
  | date, item :: rest =>
    let a := item.start_date.getD date
    match item.duration with
    | some d =>
      some (weekendAdjustedDuration a d)
        :: specShadows (a.addDays (weekendAdjustedDuration a d)) rest
    | none => none :: specShadows a rest

/-- Spec step 2 (candidate project start): fold over the items keeping the
minimum — an explicit start date earlier than the running minimum is
weekend-skipped and becomes the new candidate (the comparison uses the raw
date). -/
def specProjStart : NDate → List ItemData → NDate
  | mn, [] => mn
  | mn, item :: rest =>
    match item.start_date with
    | some s =>
      if NDate.ltb s mn then specProjStart (skipWeekendStart s) rest
      else specProjStart mn rest
    | none => specProjStart mn rest

/-- Spec step 5 (row geometry): per row, offset
`titleColumnWidth + gutterLeft + (daysFromProjectStart / totalDays) *
totalColumnWidth` where `daysFromProjectStart` counts from the normalized
project start to the carried-forward current date; a length
`(shadowDays / totalDays) * totalColumnWidth` exactly when the item has a
shadow duration, and the running date advances by the shadow duration. -/
def specRowGeom (tw gl : Rat) (sd : NDate) (nid : Nat) (aiw : Rat) :
    NDate → List (ItemData × Option Int) → List (Rat × Option Rat)
  | _, [] => []
  | date0, (item, sh) :: rest =>
    let cur := item.start_date.getD date0
    let off : Rat := tw + gl
      + (((cur.toDayNum - sd.toDayNum : Int) : Rat) / ((nid : Nat) : Rat)) * aiw
    match sh with
    | some s =>
      (off, some (((s : Int) : Rat) / ((nid : Nat) : Rat) * aiw))
        :: specRowGeom tw gl sd nid aiw (cur.addDays s) rest
    | none => (off, none) :: specRowGeom tw gl sd nid aiw cur rest

/-- Spec 3 (carry-forward): per row, the most recently seen explicit
resource index. -/
def specResIdx : Nat → List ItemData → List Nat
  | _, [] => []
  | r0, item :: rest =>
    let r := item.resource_index.getD r0
    r :: specResIdx r rest

/-- A date whose month field is a real month. -/
def NDate.MValid (x : NDate) : Prop := 1 ≤ x.m ∧ x.m ≤ 12

instance (x : NDate) : Decidable x.MValid := by
  unfold NDate.MValid; infer_instance

/-- Scan states whose three dates all have real months. -/
def ScanSt.MValid (st : ScanSt) : Prop :=
  st.start_date.MValid ∧ st.end_date.MValid ∧ st.date.MValid

/-- All explicit start dates of the schedule have real months. -/
def ChartData.DatesMValid (c : ChartData) : Prop :=
  ∀ item ∈ c.items, ∀ s, item.start_date = some s → s.MValid

/-- The first day of the month with linear index `n` (`monthIdx` inverse). -/
def monthOfIdx (n : Int) : NDate :=
  ⟨(n - 1) / 12, ((n - 1) % 12).toNat + 1, 1⟩

/-- Closed form of the column loop's month sequence. -/
def monthsRange (cur fin : NDate) : List NDate :=
  (List.range (monthIdx fin + 1 - monthIdx cur).toNat).map
    (fun j : Nat => monthOfIdx (monthIdx cur + (j : Int)))

/-! ## Concrete schedules and result extractors -/

instance {α β : Type} [DecidableEq α] [DecidableEq β] :
    DecidableEq (Except α β) := fun a b =>
  match a, b with
  | Except.error x, Except.error y =>
    if h : x = y then Decidable.isTrue (by rw [h])
    else Decidable.isFalse (by simp [h])
  | Except.error _, Except.ok _ => Decidable.isFalse (by simp)
  | Except.ok _, Except.error _ => Decidable.isFalse (by simp)
  | Except.ok x, Except.ok y =>
    if h : x = y then Decidable.isTrue (by rw [h])
    else Decidable.isFalse (by simp [h])

/-- The geometry model of a successful result (a fixed dummy otherwise). -/
def rdOf (r : Option (Except LayoutErr RenderData)) : RenderData :=
  match r with
  | some (Except.ok g) => g
  | _ =>
    { title := "", gutter := ⟨0, 0, 0, 0⟩, row_gutter := ⟨0, 0, 0, 0⟩
      row_height := 0, resource_gutter := ⟨0, 0, 0, 0⟩, resource_height := 0
      marked_date_offset := none, title_width := 0, max_month_width := 0
      rect_corner_radius := 0, styles := [], cols := [], rows := []
      resources := [] }

/-- Whether a run produced a geometry model. -/
def processOk (r : Option (Except LayoutErr RenderData)) : Bool :=
  match r with
  | some (Except.ok _) => true
  | _ => false

/-- The final scan state and shadow list of a schedule (dummies when the
scan does not succeed). -/
def scanOf (c : ChartData) : ScanSt × List (Option Int) :=
  match scanItems c.resources.length 0 ⟨dateMAX, dateMIN, dateMIN⟩ c.items with
  | some (Except.ok p) => p
  | _ => (⟨dateMAX, dateMIN, dateMIN⟩, [])

/-- A schedule whose item 0 lacks a resource index while item 1 carries an
out-of-range one (the resource list is empty). -/
def chartC1cex : ChartData :=
  { title := "t", marked_date := none, resources := []
    items := [⟨"a", none, some ⟨2024, 1, 1⟩, none, none⟩,
              ⟨"b", none, none, some 0, none⟩] }

/-- A single-item schedule. -/
def chartOneItem : ChartData :=
  { title := "t", marked_date := none, resources := ["r"]
    items := [⟨"a", some 1, some ⟨2024, 1, 1⟩, some 0, none⟩] }

/-- The concrete scenario of spec section 8: Alice/Bob, items A and B. -/
def chartC7 : ChartData :=
  { title := "t", marked_date := none, resources := ["Alice", "Bob"]
    items := [⟨"A", some 5, some ⟨2024, 1, 1⟩, some 0, none⟩,
              ⟨"B", some 3, none, some 1, none⟩] }

/-- A schedule spanning February 2024 (a 29-day month, so its column is
narrower than `max_month_width`). -/
def chartFeb : ChartData :=
  { title := "t", marked_date := none, resources := ["r"]
    items := [⟨"A", some 1, some ⟨2024, 2, 1⟩, some 0, none⟩,
              ⟨"B", some 1, none, none, none⟩] }

/-- A valid two-item schedule whose first duration exceeds
`TimeDelta::try_days`' bound of 106751991167 days. -/
def chartHugeDuration : ChartData :=
  { title := "t", marked_date := none, resources := ["r"]
    items := [⟨"A", some 1000000000000000, some ⟨2024, 1, 1⟩, some 0, none⟩,
              ⟨"B", none, none, none, none⟩] }

/-- A one-column geometry model used to exercise the column layer. -/
def rdC9w : RenderData :=
  { title := "w", gutter := ⟨10, 80, 10, 10⟩, row_gutter := ⟨5, 5, 5, 5⟩
    row_height := 30, resource_gutter := ⟨10, 10, 10, 10⟩, resource_height := 40
    marked_date_offset := none, title_width := 210, max_month_width := 200
    rect_corner_radius := 3, styles := [], cols := [⟨200, "Jan"⟩], rows := []
    resources := [] }

/-! ## Basic lemmas about the scan -/

theorem tryDays_eq {n m : Int} (h : tryDays n = some m) : m = n := by
  unfold tryDays at h
  split at h
  · exact (Option.some_inj.mp h).symm
  · exact absurd h (by simp)

theorem endPhase_date (st : ScanSt) : (endPhase st).date = st.date := by
  unfold endPhase; split <;> rfl

theorem endPhase_start (st : ScanSt) : (endPhase st).start_date = st.start_date := by
  unfold endPhase; split <;> rfl

/-- Successful start-phase: the running date becomes the item's explicit
start date (raw, un-skipped) when present, else stays. -/
theorem startPhase_ok_date {i : Nat} {st st1 : ScanSt} {item : ItemData}
    (h : startPhase i st item = Except.ok st1) :
    st1.date = item.start_date.getD st.date ∧ st1.end_date = st.end_date := by
  cases hs : item.start_date with
  | some s =>
    simp only [startPhase, hs] at h
    split at h <;> (injection h with h; subst h; simp [hs])
  | none =>
    simp only [startPhase, hs] at h
    split at h
    · exact absurd h (by simp)
    · injection h with h; subst h; simp [hs]

/-- Successful start-phase: the candidate project start is updated with the
weekend-skipped date exactly when the raw date undercuts the running
minimum. -/
theorem startPhase_ok_start {i : Nat} {st st1 : ScanSt} {item : ItemData}
    (h : startPhase i st item = Except.ok st1) :
    st1.start_date =
      match item.start_date with
      | some s => if NDate.ltb s st.start_date then skipWeekendStart s else st.start_date
      | none => st.start_date := by
  cases hs : item.start_date with
  | some s =>
    simp only [startPhase, hs] at h
    split at h <;> (injection h with h; subst h; simp_all)
  | none =>
    simp only [startPhase, hs] at h
    split at h
    · exact absurd h (by simp)
    · injection h with h; subst h; rfl

/-- Successful duration-phase: the shadow duration is the spec's
weekend-adjusted duration against the incoming running date, and the
running date advances by it. -/
theorem durPhase_some {st st2 : ScanSt} {item : ItemData} {sh : Option Int}
    (h : durPhase st item = some (st2, sh)) :
    (item.duration = none ∧ st2 = st ∧ sh = none) ∨
    (∃ d, item.duration = some d
      ∧ sh = some (weekendAdjustedDuration st.date d)
      ∧ st2 = { st with date := st.date.addDays (weekendAdjustedDuration st.date d) }) := by
  cases hd : item.duration with
  | none =>
    simp only [durPhase, hd] at h
    left
    injection h with h
    exact ⟨rfl, (congrArg Prod.fst h).symm, (congrArg Prod.snd h).symm⟩
  | some d =>
    simp only [durPhase, hd] at h
    right
    refine ⟨d, rfl, ?_⟩
    cases ht : tryDays d with
    | none => rw [ht] at h; exact absurd h (by simp)
    | some td =>
      rw [ht, tryDays_eq ht] at h
      split at h
      · exact absurd h (by simp)
      · next dur hw =>
        injection hw with hw
        subst hw
        split at h
        · exact absurd h (by simp)
        · next dur2 hw2 =>
          injection h with h
          unfold weekendAdjustedDuration
          split at hw2
          · next hw5 =>
            have hde := tryDays_eq hw2
            subst hde
            rw [if_pos hw5]
            exact ⟨(congrArg Prod.snd h).symm, (congrArg Prod.fst h).symm⟩
          · next hw5 =>
            split at hw2
            · next hw6 =>
              have hde := tryDays_eq hw2
              subst hde
              rw [if_neg hw5, if_pos hw6]
              exact ⟨(congrArg Prod.snd h).symm, (congrArg Prod.fst h).symm⟩
            · next hw6 =>
              injection hw2 with hw2
              subst hw2
              rw [if_neg hw5, if_neg hw6]
              exact ⟨(congrArg Prod.snd h).symm, (congrArg Prod.fst h).symm⟩

/-- Inversion of one successful scan step. -/
theorem scanItems_cons_ok {rlen i : Nat} {st stF : ScanSt} {item : ItemData}
    {rest : List ItemData} {shs : List (Option Int)}
    (h : scanItems rlen i st (item :: rest) = some (Except.ok (stF, shs))) :
    ∃ st1 st2 sh shs',
      startPhase i st item = Except.ok st1
      ∧ durPhase st1 item = some (st2, sh)
      ∧ resPhase rlen i item = none
      ∧ scanItems rlen (i + 1) (endPhase st2) rest = some (Except.ok (stF, shs'))
      ∧ shs = sh :: shs' := by
  simp only [scanItems] at h
  split at h
  · exact absurd h (by simp)
  · next st1 hsp =>
    split at h
    · exact absurd h (by simp)
    · next st2 sh hdp =>
      split at h
      · exact absurd h (by simp)
      · next hrp =>
        split at h
        · exact absurd h (by simp)
        · exact absurd h (by simp)
        · next stF2 shs2 hrec =>
          simp only [Option.some_inj, Except.ok.injEq, Prod.mk.injEq] at h
          exact ⟨st1, st2, sh, shs2, hsp, hdp, hrp, h.1 ▸ hrec, h.2.symm⟩

/-- If the whole scan succeeds, the recorded shadow-duration list is the
spec's: each duration weekend-adjusted against the running date, the
running date advanced by the shadow duration. -/
theorem scanItems_shadows :
    ∀ (items : List ItemData) (rlen i : Nat) (st stF : ScanSt)
      (shs : List (Option Int)),
      scanItems rlen i st items = some (Except.ok (stF, shs)) →
      shs = specShadows st.date items := by
  intro items
  induction items with
  | nil =>
    intro rlen i st stF shs h
    simp only [scanItems, Option.some_inj, Except.ok.injEq, Prod.mk.injEq] at h
    simp [specShadows, ← h.2]
  | cons item rest ih =>
    intro rlen i st stF shs h
    obtain ⟨st1, st2, sh, shs', hsp, hdp, _, hrec, hcons⟩ := scanItems_cons_ok h
    subst hcons
    have hdate := (startPhase_ok_date hsp).1
    have hrec' := ih rlen (i + 1) (endPhase st2) stF shs' hrec
    rcases durPhase_some hdp with ⟨hdur, hst, hsh⟩ | ⟨d, hdur, hsh, hst⟩
    · subst hsh
      subst hst
      rw [endPhase_date, hdate] at hrec'
      cases hs : item.start_date with
      | some s => rw [hs] at hrec'; simp [specShadows, hdur, hs, hrec']
      | none => rw [hs] at hrec'; simp [specShadows, hdur, hs, hrec']
    · subst hsh
      subst hst
      rw [endPhase_date] at hrec'
      simp only [ScanSt.mk.injEq] at hrec'
      cases hs : item.start_date with
      | some s =>
        rw [hs] at hdate
        simp only [Option.getD] at hdate
        rw [hdate] at hrec'
        simp [specShadows, hdur, hs, hrec', hdate]
      | none =>
        rw [hs] at hdate
        simp only [Option.getD] at hdate
        rw [hdate] at hrec'
        simp [specShadows, hdur, hs, hrec', hdate]

theorem durPhase_start {st st2 : ScanSt} {item : ItemData} {sh : Option Int}
    (h : durPhase st item = some (st2, sh)) : st2.start_date = st.start_date := by
  rcases durPhase_some h with ⟨_, hst, _⟩ | ⟨d, _, _, hst⟩ <;> rw [hst]

/-- If the whole scan succeeds, the final candidate project start is the
spec's fold: raw explicit start dates compared against the running minimum,
the earlier one weekend-skipped and kept. -/
theorem scanItems_start :
    ∀ (items : List ItemData) (rlen i : Nat) (st stF : ScanSt)
      (shs : List (Option Int)),
      scanItems rlen i st items = some (Except.ok (stF, shs)) →
      stF.start_date = specProjStart st.start_date items := by
  intro items
  induction items with
  | nil =>
    intro rlen i st stF shs h
    simp only [scanItems, Option.some_inj, Except.ok.injEq, Prod.mk.injEq] at h
    simp [specProjStart, ← h.1]
  | cons item rest ih =>
    intro rlen i st stF shs h
    obtain ⟨st1, st2, sh, shs', hsp, hdp, _, hrec, _⟩ := scanItems_cons_ok h
    have h1 := startPhase_ok_start hsp
    have hrec' := ih rlen (i + 1) (endPhase st2) stF shs' hrec
    rw [endPhase_start, durPhase_start hdp, h1] at hrec'
    rw [hrec']
    simp only [specProjStart]
    cases item.start_date with
    | none => rfl
    | some s =>
      by_cases hc : NDate.ltb s st.start_date = true
      · simp only [if_pos hc]
      · simp only [if_neg hc]

theorem specShadows_length :
    ∀ (items : List ItemData) (a : NDate), (specShadows a items).length = items.length := by
  intro items
  induction items with
  | nil => intro a; rfl
  | cons item rest ih =>
    intro a
    cases hd : item.duration <;> simp [specShadows, hd, ih]

/-! ## Basic lemmas about the row loop -/

/-- Inversion of one successful row step. -/
theorem rowsLoop_cons_ok {tw gl : Rat} {sd : NDate} {nid : Nat} {aiw : Rat}
    {date0 : NDate} {res0 : Nat} {item : ItemData} {sh : Option Int}
    {rest : List (ItemData × Option Int)} {rows : List RowRenderData}
    (h : rowsLoop tw gl sd nid aiw date0 res0 ((item, sh) :: rest) = some rows) :
    ∃ date2 len rows',
      rowAdvance (item.start_date.getD date0) nid aiw sh = some (date2, len)
      ∧ rowsLoop tw gl sd nid aiw date2 (item.resource_index.getD res0) rest = some rows'
      ∧ rows =
        { title := item.title
          resource_index := item.resource_index.getD res0
          offset := tw + gl
            + ((((item.start_date.getD date0).toDayNum - sd.toDayNum : Int) : Rat)
                / ((nid : Nat) : Rat)) * aiw
          length := len
          openFlag := item.openFlag.getD false } :: rows' := by
  simp only [rowsLoop] at h
  split at h
  · exact absurd h (by simp)
  · next date2 len hadv =>
    split at h
    · exact absurd h (by simp)
    · next rows' hrec =>
      exact ⟨date2, len, rows', hadv, hrec, (Option.some_inj.mp h).symm⟩

/-- Successful advance step: the bar length is the shadow duration scaled,
and for bars the date advances by the shadow duration. -/
theorem rowAdvance_some {date1 : NDate} {nid : Nat} {aiw : Rat} {sh : Option Int}
    {date2 : NDate} {len : Option Rat}
    (h : rowAdvance date1 nid aiw sh = some (date2, len)) :
    (sh = none ∧ date2 = date1 ∧ len = none) ∨
    (∃ s, sh = some s ∧ date2 = date1.addDays s
      ∧ len = some (((s : Int) : Rat) / ((nid : Nat) : Rat) * aiw)) := by
  cases hs : sh with
  | none =>
    simp only [rowAdvance, hs] at h
    left
    injection h with h
    exact ⟨rfl, (congrArg Prod.fst h).symm, (congrArg Prod.snd h).symm⟩
  | some s =>
    simp only [rowAdvance, hs] at h
    right
    cases ht : tryDays s with
    | none => rw [ht] at h; exact absurd h (by simp)
    | some td =>
      rw [ht, tryDays_eq ht] at h
      simp only [Option.map_some', Option.some_inj] at h
      exact ⟨s, rfl, (congrArg Prod.fst h).symm, (congrArg Prod.snd h).symm⟩

/-- If the row loop succeeds, the produced offsets and lengths are the
spec's row geometry. -/
theorem rowsLoop_geom :
    ∀ (pairs : List (ItemData × Option Int)) (tw gl : Rat) (sd : NDate)
      (nid : Nat) (aiw : Rat) (date0 : NDate) (res0 : Nat)
      (rows : List RowRenderData),
      rowsLoop tw gl sd nid aiw date0 res0 pairs = some rows →
      rows.map (fun r => (r.offset, r.length)) =
        specRowGeom tw gl sd nid aiw date0 pairs := by
  intro pairs
  induction pairs with
  | nil =>
    intro tw gl sd nid aiw date0 res0 rows h
    simp only [rowsLoop, Option.some_inj] at h
    simp [specRowGeom, ← h]
  | cons p rest ih =>
    intro tw gl sd nid aiw date0 res0 rows h
    obtain ⟨item, sh⟩ := p
    obtain ⟨date2, len, rows', hadv, hrec, hrows⟩ := rowsLoop_cons_ok h
    subst hrows
    have ih' := ih tw gl sd nid aiw date2 (item.resource_index.getD res0) rows' hrec
    rcases rowAdvance_some hadv with ⟨hsh, hd2, hlen⟩ | ⟨s, hsh, hd2, hlen⟩
    · subst hsh; subst hd2; subst hlen
      simp [specRowGeom, ih']
    · subst hsh; subst hd2; subst hlen
      simp [specRowGeom, ih']

/-- If the row loop succeeds, the produced resource indices are the spec's
carry-forward fold. -/
theorem rowsLoop_res :
    ∀ (pairs : List (ItemData × Option Int)) (tw gl : Rat) (sd : NDate)
      (nid : Nat) (aiw : Rat) (date0 : NDate) (res0 : Nat)
      (rows : List RowRenderData),
      rowsLoop tw gl sd nid aiw date0 res0 pairs = some rows →
      rows.map (fun r => r.resource_index) =
        specResIdx res0 (pairs.map (fun p => p.1)) := by
  intro pairs
  induction pairs with
  | nil =>
    intro tw gl sd nid aiw date0 res0 rows h
    simp only [rowsLoop, Option.some_inj] at h
    simp [specResIdx, ← h]
  | cons p rest ih =>
    intro tw gl sd nid aiw date0 res0 rows h
    obtain ⟨item, sh⟩ := p
    obtain ⟨date2, len, rows', hadv, hrec, hrows⟩ := rowsLoop_cons_ok h
    subst hrows
    have ih' := ih tw gl sd nid aiw date2 (item.resource_index.getD res0) rows' hrec
    simp [specResIdx, ih']

/-- If the row loop succeeds, titles and open flags come one-to-one from
the items (`open` defaulting to `false`). -/
theorem rowsLoop_title_open :
    ∀ (pairs : List (ItemData × Option Int)) (tw gl : Rat) (sd : NDate)
      (nid : Nat) (aiw : Rat) (date0 : NDate) (res0 : Nat)
      (rows : List RowRenderData),
      rowsLoop tw gl sd nid aiw date0 res0 pairs = some rows →
      rows.map (fun r => (r.title, r.openFlag)) =
        pairs.map (fun p => (p.1.title, p.1.openFlag.getD false)) := by
  intro pairs
  induction pairs with
  | nil =>
    intro tw gl sd nid aiw date0 res0 rows h
    simp only [rowsLoop, Option.some_inj] at h
    subst h
    simp
  | cons p rest ih =>
    intro tw gl sd nid aiw date0 res0 rows h
    obtain ⟨item, sh⟩ := p
    obtain ⟨date2, len, rows', hadv, hrec, hrows⟩ := rowsLoop_cons_ok h
    subst hrows
    have ih' := ih tw gl sd nid aiw date2 (item.resource_index.getD res0) rows' hrec
    simp [ih']

/-- The spec row geometry has the same length as its input. -/
theorem specRowGeom_length :
    ∀ (pairs : List (ItemData × Option Int)) (tw gl : Rat) (sd : NDate)
      (nid : Nat) (aiw : Rat) (date0 : NDate),
      (specRowGeom tw gl sd nid aiw date0 pairs).length = pairs.length := by
  intro pairs
  induction pairs with
  | nil => intro tw gl sd nid aiw date0; rfl
  | cons p rest ih =>
    intro tw gl sd nid aiw date0
    obtain ⟨item, sh⟩ := p
    cases hs : sh <;> simp [specRowGeom, hs, ih]

/-- The second components of the spec row geometry: a length is present
exactly for shadow durations, scaled by `aiw / nid`. -/
theorem specRowGeom_snd :
    ∀ (pairs : List (ItemData × Option Int)) (tw gl : Rat) (sd : NDate)
      (nid : Nat) (aiw : Rat) (date0 : NDate),
      (specRowGeom tw gl sd nid aiw date0 pairs).map (fun q => q.2) =
        pairs.map (fun p =>
          p.2.map (fun s => ((s : Int) : Rat) / ((nid : Nat) : Rat) * aiw)) := by
  intro pairs
  induction pairs with
  | nil => intro tw gl sd nid aiw date0; rfl
  | cons p rest ih =>
    intro tw gl sd nid aiw date0
    obtain ⟨item, sh⟩ := p
    cases hs : sh <;> simp [specRowGeom, hs, ih]

/-! ## Calendar well-formedness lemmas -/

theorem daysInMonthTable_pos {y : Int} {m : Nat} (h1 : 1 ≤ m) (h2 : m ≤ 12) :
    28 ≤ daysInMonthTable y m := by
  interval_cases m <;> simp [daysInMonthTable] <;> split <;> omega

theorem MValid_succ {x : NDate} (h : x.MValid) : x.succ.MValid := by
  obtain ⟨h1, h2⟩ := h
  unfold NDate.succ NDate.MValid
  split
  · exact ⟨h1, h2⟩
  · split <;> simp <;> omega

theorem MValid_pred {x : NDate} (h : x.MValid) : x.pred.MValid := by
  obtain ⟨h1, h2⟩ := h
  unfold NDate.pred NDate.MValid
  split
  · exact ⟨h1, h2⟩
  · split <;> simp <;> omega

theorem MValid_addNat {x : NDate} (h : x.MValid) : ∀ n, (x.addNat n).MValid := by
  intro n
  induction n generalizing x with
  | zero => exact h
  | succ k ih => exact ih (MValid_succ h)

theorem MValid_subNat {x : NDate} (h : x.MValid) : ∀ n, (x.subNat n).MValid := by
  intro n
  induction n generalizing x with
  | zero => exact h
  | succ k ih => exact ih (MValid_pred h)

theorem MValid_addDays {x : NDate} (h : x.MValid) (n : Int) : (x.addDays n).MValid := by
  unfold NDate.addDays
  split
  · exact MValid_addNat h _
  · exact MValid_subNat h _

theorem MValid_skipWeekendStart {x : NDate} (h : x.MValid) :
    (skipWeekendStart x).MValid := by
  unfold skipWeekendStart
  split
  · exact MValid_addDays h 2
  · split
    · exact MValid_addDays h 1
    · exact h

/-- Function `num_days_in_month` computes the standard day count of the month. -/
theorem num_days_eq_table (y : Int) {m : Nat} (h1 : 1 ≤ m) (h2 : m ≤ 12) :
    num_days_in_month y m = daysInMonthTable y m := by
  interval_cases m <;>
    simp [num_days_in_month, NDate.pred, daysInMonthTable] <;> norm_num

theorem startPhase_MValid {i : Nat} {st st1 : ScanSt} {item : ItemData}
    (hst : st.MValid) (hit : ∀ s, item.start_date = some s → s.MValid)
    (h : startPhase i st item = Except.ok st1) : st1.MValid := by
  obtain ⟨hs, he, hd⟩ := hst
  cases hsd : item.start_date with
  | some s =>
    have hsv := hit s hsd
    simp only [startPhase, hsd] at h
    split at h <;> injection h with h <;> subst h
    · exact ⟨MValid_skipWeekendStart hsv, he, hsv⟩
    · exact ⟨hs, he, hsv⟩
  | none =>
    simp only [startPhase, hsd] at h
    split at h
    · exact absurd h (by simp)
    · injection h with h; subst h; exact ⟨hs, he, hd⟩

theorem durPhase_MValid {st st2 : ScanSt} {item : ItemData} {sh : Option Int}
    (hst : st.MValid) (h : durPhase st item = some (st2, sh)) : st2.MValid := by
  rcases durPhase_some h with ⟨_, hst2, _⟩ | ⟨d, _, _, hst2⟩
  · rw [hst2]; exact hst
  · rw [hst2]
    exact ⟨hst.1, hst.2.1, MValid_addDays hst.2.2 _⟩

theorem endPhase_MValid {st : ScanSt} (hst : st.MValid) : (endPhase st).MValid := by
  unfold endPhase
  split
  · exact ⟨hst.1, hst.2.2, hst.2.2⟩
  · exact hst

/-- A successful scan preserves month-validity of the state. -/
theorem scanItems_MValid :
    ∀ (items : List ItemData) (rlen i : Nat) (st stF : ScanSt)
      (shs : List (Option Int)),
      st.MValid → (∀ item ∈ items, ∀ s, item.start_date = some s → s.MValid) →
      scanItems rlen i st items = some (Except.ok (stF, shs)) →
      stF.MValid := by
  intro items
  induction items with
  | nil =>
    intro rlen i st stF shs hst _ h
    simp only [scanItems, Option.some_inj, Except.ok.injEq, Prod.mk.injEq] at h
    exact h.1 ▸ hst
  | cons item rest ih =>
    intro rlen i st stF shs hst hdv h
    obtain ⟨st1, st2, sh, shs', hsp, hdp, _, hrec, _⟩ := scanItems_cons_ok h
    have h1 := startPhase_MValid hst (hdv item (by simp)) hsp
    have h2 := durPhase_MValid h1 hdp
    exact ih rlen (i + 1) (endPhase st2) stF shs' (endPhase_MValid h2)
      (fun it hit s hs => hdv it (by simp [hit]) s hs) hrec

/-! ## Characterization of the column loop -/

theorem monthOfIdx_encode (y : Int) {m : Nat} (h1 : 1 ≤ m) (h2 : m ≤ 12) :
    monthOfIdx (12 * y + (m : Int)) = ⟨y, m, 1⟩ := by
  simp only [monthOfIdx, NDate.mk.injEq]
  refine ⟨by omega, by omega, trivial⟩

/-- For a first-of-month date against a date with a real month and day,
the loop's `<=` is the comparison of linear month indices. -/
theorem leb_first_iff {y : Int} {m : Nat} {f : NDate} (hm1 : 1 ≤ m) (hm2 : m ≤ 12)
    (hf1 : 1 ≤ f.m) (hf2 : f.m ≤ 12) (hfd : 1 ≤ f.d) :
    (NDate.leb ⟨y, m, 1⟩ f = true) ↔
      12 * y + (m : Int) ≤ 12 * f.y + (f.m : Int) := by
  simp only [NDate.leb, Bool.or_eq_true, Bool.and_eq_true, decide_eq_true_eq,
    beq_iff_eq]
  omega

theorem monthIdx_next {x : NDate} (h1 : 1 ≤ x.m) (h2 : x.m ≤ 12) :
    monthIdx (nextMonthFirst x) = monthIdx x + 1 := by
  simp only [nextMonthFirst, monthIdx]
  by_cases h12 : x.m = 12
  · simp [h12]; ring
  · have hmod : x.m % 12 = x.m := Nat.mod_eq_of_lt (by omega)
    simp only [if_neg h12, hmod]
    push_cast
    ring

theorem monthsLoopF_char :
    ∀ (k : Nat) (cur fin : NDate),
      cur.d = 1 → 1 ≤ cur.m → cur.m ≤ 12 → 1 ≤ fin.m → fin.m ≤ 12 → 1 ≤ fin.d →
      (monthIdx fin + 1 - monthIdx cur).toNat < k →
      monthsLoopF k cur fin = monthsRange cur fin := by
  intro k
  induction k with
  | zero => intro cur fin _ _ _ _ _ _ hk; omega
  | succ k ih =>
    intro cur fin hd hm1 hm2 hf1 hf2 hfd hk
    obtain ⟨cy, cm, cd⟩ := cur
    simp only at hd hm1 hm2 hk
    subst hd
    simp only [monthsLoopF, monthsRange]
    by_cases hle : NDate.leb ⟨cy, cm, 1⟩ fin = true
    · rw [if_pos hle]
      have hidx := (leb_first_iff hm1 hm2 hf1 hf2 hfd).mp hle
      simp only [monthIdx] at hidx
      have hn : (monthIdx fin + 1 - monthIdx ⟨cy, cm, 1⟩).toNat
          = (monthIdx fin - monthIdx ⟨cy, cm, 1⟩).toNat + 1 := by
        simp only [monthIdx]; omega
      rw [hn, List.range_succ_eq_map, List.map_cons, List.map_map]
      have hnm := @monthIdx_next ⟨cy, cm, 1⟩ hm1 hm2
      have hrec := ih (nextMonthFirst ⟨cy, cm, 1⟩) fin rfl
        (by simp only [nextMonthFirst]; omega) (by simp only [nextMonthFirst]; omega)
        hf1 hf2 hfd
        (by rw [hnm]; simp only [monthIdx] at hk ⊢; omega)
      rw [hrec]
      simp only [monthsRange, hnm]
      have hhead : monthOfIdx (monthIdx ⟨cy, cm, 1⟩ + ((0 : Nat) : Int))
          = (⟨cy, cm, 1⟩ : NDate) := by
        rw [show monthIdx ⟨cy, cm, 1⟩ + ((0 : Nat) : Int) = 12 * cy + (cm : Int) by
          simp [monthIdx]]
        exact monthOfIdx_encode cy hm1 hm2
      rw [hhead]
      have harg : (monthIdx fin + 1 - (monthIdx ⟨cy, cm, 1⟩ + 1)).toNat
          = (monthIdx fin - monthIdx ⟨cy, cm, 1⟩).toNat := by
        simp only [monthIdx]; omega
      rw [harg]
      congr 1
      apply List.map_congr_left
      intro j hj
      simp only [Function.comp_apply]
      congr 1
      push_cast
      ring
    · rw [if_neg hle]
      have hidx : ¬(12 * cy + (cm : Int) ≤ 12 * fin.y + (fin.m : Int)) := by
        intro hc
        exact hle ((leb_first_iff hm1 hm2 hf1 hf2 hfd).mpr hc)
      have : (monthIdx fin + 1 - monthIdx ⟨cy, cm, 1⟩).toNat = 0 := by
        simp only [monthIdx]; omega
      rw [this]
      rfl

/-- The column loop visits exactly the months from `cur` to `fin`. -/
theorem monthsLoop_char {cur fin : NDate} (hd : cur.d = 1) (hm1 : 1 ≤ cur.m)
    (hm2 : cur.m ≤ 12) (hf1 : 1 ≤ fin.m) (hf2 : fin.m ≤ 12) (hfd : 1 ≤ fin.d) :
    monthsLoop cur fin = monthsRange cur fin := by
  apply monthsLoopF_char _ _ _ hd hm1 hm2 hf1 hf2 hfd
  simp only [monthIdx]
  omega

/-! ## Inversion of `process_chart_data` -/

/-- When the item count is not short, a scan error is the run's error. -/
theorem process_scan_err {tw mw se : Rat} {c : ChartData}
    {r : Except LayoutErr RenderData} {e : LayoutErr}
    (h : process_chart_data tw mw se c = some r)
    (hlen : ¬ c.items.length < 2)
    (hscan : scanItems c.resources.length 0 ⟨dateMAX, dateMIN, dateMIN⟩ c.items
      = some (Except.error e)) :
    r = Except.error e := by
  simp only [process_chart_data, if_neg hlen, hscan] at h
  exact (Option.some_inj.mp h).symm

/-- When the item count is not short, a scan panic is the run's panic. -/
theorem process_scan_none {tw mw se : Rat} {c : ChartData}
    (hlen : ¬ c.items.length < 2)
    (hscan : scanItems c.resources.length 0 ⟨dateMAX, dateMIN, dateMIN⟩ c.items
      = none) :
    process_chart_data tw mw se c = none := by
  simp only [process_chart_data, if_neg hlen, hscan]

/-- After a successful scan, any non-panic run result is a geometry model. -/
theorem process_scan_ok_shape {tw mw se : Rat} {c : ChartData}
    {r : Except LayoutErr RenderData} {stF : ScanSt} {shs : List (Option Int)}
    (h : process_chart_data tw mw se c = some r)
    (hlen : ¬ c.items.length < 2)
    (hscan : scanItems c.resources.length 0 ⟨dateMAX, dateMIN, dateMIN⟩ c.items
      = some (Except.ok (stF, shs))) :
    ∃ g, r = Except.ok g := by
  simp only [process_chart_data, if_neg hlen, hscan] at h
  split at h
  · exact absurd h (by simp)
  · next rows hrows =>
    exact ⟨_, (Option.some_inj.mp h).symm⟩

/-- Field-level inversion of a successful run. -/
theorem process_ok_fields {tw mw se : Rat} {c : ChartData} {g : RenderData}
    {stF : ScanSt} {shs : List (Option Int)}
    (h : process_chart_data tw mw se c = some (Except.ok g))
    (hscan : scanItems c.resources.length 0 ⟨dateMAX, dateMIN, dateMIN⟩ c.items
      = some (Except.ok (stF, shs))) :
    rowsLoop tw 10 (normStart stF) (numItemDays stF) (allItemsWidth mw stF)
        (normStart stF) 0 (c.items.zip shs) = some g.rows
    ∧ g.cols = colsOf mw stF
    ∧ g.title_width = tw ∧ g.max_month_width = mw
    ∧ g.gutter = ⟨10, 80, 10, 10⟩ ∧ g.row_gutter = ⟨5, 5, 5, 5⟩
    ∧ g.row_height = 30 ∧ g.resource_gutter = ⟨10, 10, 10, 10⟩
    ∧ g.resource_height = 40
    ∧ g.resources = c.resources ∧ g.title = c.title
    ∧ g.styles = baseStyles ++ resourceStylesGo se 0 c.resources.length
    ∧ g.marked_date_offset = c.marked_date.map (fun d =>
        tw + 10 + (((d.toDayNum - (normStart stF).toDayNum : Int) : Rat)
          / ((numItemDays stF : Nat) : Rat)) * allItemsWidth mw stF)
    ∧ ¬ c.items.length < 2 := by
  have hlen : ¬ c.items.length < 2 := by
    intro hlt
    simp only [process_chart_data, if_pos hlt] at h
    exact absurd h (by simp)
  simp only [process_chart_data, if_neg hlen, hscan] at h
  split at h
  · exact absurd h (by simp)
  · next rows hrows =>
    have hg := Option.some_inj.mp h
    have hg2 := (Except.ok.inj hg).symm
    subst hg2
    refine ⟨hrows, rfl, rfl, rfl, rfl, rfl, ?_, rfl, ?_, rfl, rfl, rfl, rfl, hlen⟩
    · simp [Gutter.height]; norm_num
    · simp [Gutter.height]; norm_num

/-! ## Error classification of the scan -/

theorem scanItems_cons_err {rlen i : Nat} {st : ScanSt} {item : ItemData}
    {rest : List ItemData} {e : LayoutErr}
    (h : scanItems rlen i st (item :: rest) = some (Except.error e)) :
    startPhase i st item = Except.error e
    ∨ (∃ st1 st2 sh, startPhase i st item = Except.ok st1
        ∧ durPhase st1 item = some (st2, sh)
        ∧ resPhase rlen i item = some e)
    ∨ (∃ st1 st2 sh, startPhase i st item = Except.ok st1
        ∧ durPhase st1 item = some (st2, sh)
        ∧ resPhase rlen i item = none
        ∧ scanItems rlen (i + 1) (endPhase st2) rest = some (Except.error e)) := by
  simp only [scanItems] at h
  split at h
  · next e2 hsp =>
    left
    injection h with h
    injection h with h
    rw [hsp, h]
  · next st1 hsp =>
    split at h
    · exact absurd h (by simp)
    · next st2 sh hdp =>
      split at h
      · next e2 hrp =>
        right; left
        injection h with h
        injection h with h
        exact ⟨st1, st2, sh, hsp, hdp, h ▸ hrp⟩
      · next hrp =>
        split at h
        · exact absurd h (by simp)
        · next e2 hrec =>
          right; right
          injection h with h
          injection h with h
          exact ⟨st1, st2, sh, hsp, hdp, hrp, h ▸ hrec⟩
        · exact absurd h (by simp)

theorem startPhase_err {i : Nat} {st : ScanSt} {item : ItemData} {e : LayoutErr}
    (h : startPhase i st item = Except.error e) :
    e = LayoutErr.missingStartDate ∧ item.start_date = none ∧ i = 0 := by
  cases hs : item.start_date with
  | some s =>
    simp only [startPhase, hs] at h
    split at h <;> exact absurd h (by simp)
  | none =>
    simp only [startPhase, hs] at h
    split at h
    · next hi => exact ⟨(Except.error.inj h).symm, rfl, hi⟩
    · exact absurd h (by simp)

theorem startPhase_some_ok {i : Nat} {st : ScanSt} {item : ItemData} {s : NDate}
    (hs : item.start_date = some s) :
    ∃ st1, startPhase i st item = Except.ok st1 := by
  simp only [startPhase, hs]
  split <;> exact ⟨_, rfl⟩

theorem startPhase_tail_ok {i : Nat} {st : ScanSt} {item : ItemData} :
    ∃ st1, startPhase (i + 1) st item = Except.ok st1 := by
  cases hs : item.start_date with
  | some s => exact startPhase_some_ok hs
  | none => exact ⟨st, by simp [startPhase, hs]⟩

theorem resPhase_some {rlen i : Nat} {item : ItemData} {e : LayoutErr}
    (h : resPhase rlen i item = some e) :
    (e = LayoutErr.resourceIndexOutOfRange
      ∧ ∃ ri, item.resource_index = some ri ∧ rlen ≤ ri)
    ∨ (e = LayoutErr.missingResourceIndex ∧ item.resource_index = none ∧ i = 0) := by
  cases hr : item.resource_index with
  | some ri =>
    simp only [resPhase, hr] at h
    split at h
    · next hge => exact Or.inl ⟨(Option.some_inj.mp h).symm, ri, rfl, hge⟩
    · exact absurd h (by simp)
  | none =>
    simp only [resPhase, hr] at h
    split at h
    · next hi => exact Or.inr ⟨(Option.some_inj.mp h).symm, rfl, hi⟩
    · exact absurd h (by simp)

theorem resPhase_none_of {rlen i : Nat} {item : ItemData}
    (hin : ∀ ri, item.resource_index = some ri → ri < rlen)
    (hhead : item.resource_index.isSome ∨ i ≠ 0) :
    resPhase rlen i item = none := by
  cases hr : item.resource_index with
  | some ri =>
    have := hin ri hr
    simp [resPhase, hr, Nat.not_le.mpr this]
  | none =>
    rcases hhead with hs | hi
    · rw [hr] at hs; exact absurd hs (by simp)
    · simp [resPhase, hr, hi]

/-- The scan never reports the too-few-items error (that check is made
before the loop). -/
theorem scanItems_no_tfi :
    ∀ (items : List ItemData) (rlen i : Nat) (st : ScanSt),
      scanItems rlen i st items ≠ some (Except.error LayoutErr.tooFewItems) := by
  intro items
  induction items with
  | nil => intro rlen i st h; simp [scanItems] at h
  | cons item rest ih =>
    intro rlen i st h
    rcases scanItems_cons_err h with hsp | ⟨_, _, _, _, _, hrp⟩ | ⟨_, st2, _, _, _, _, hrec⟩
    · exact absurd (startPhase_err hsp).1 (by simp)
    · rcases resPhase_some hrp with ⟨he, _⟩ | ⟨he, _⟩ <;> simp at he
    · exact ih rlen (i + 1) (endPhase st2) hrec

/-- Past item 0, the only scan error is an out-of-range resource index. -/
theorem scanItems_tail_err :
    ∀ (items : List ItemData) (rlen i : Nat) (st : ScanSt) (e : LayoutErr),
      scanItems rlen (i + 1) st items = some (Except.error e) →
      e = LayoutErr.resourceIndexOutOfRange := by
  intro items
  induction items with
  | nil => intro rlen i st e h; simp [scanItems] at h
  | cons item rest ih =>
    intro rlen i st e h
    rcases scanItems_cons_err h with hsp | ⟨_, _, _, _, _, hrp⟩ | ⟨_, st2, _, _, _, _, hrec⟩
    · exact absurd (startPhase_err hsp).2.2 (by simp)
    · rcases resPhase_some hrp with ⟨he, _⟩ | ⟨_, _, hi⟩
      · exact he
      · exact absurd hi (by simp)
    · exact ih rlen (i + 1) (endPhase st2) e hrec

/-- An out-of-range scan error exhibits an out-of-range explicit index. -/
theorem scanItems_err_oob :
    ∀ (items : List ItemData) (rlen i : Nat) (st : ScanSt),
      scanItems rlen i st items
        = some (Except.error LayoutErr.resourceIndexOutOfRange) →
      ∃ item ∈ items, ∃ ri, item.resource_index = some ri ∧ rlen ≤ ri := by
  intro items
  induction items with
  | nil => intro rlen i st h; simp [scanItems] at h
  | cons item rest ih =>
    intro rlen i st h
    rcases scanItems_cons_err h with hsp | ⟨_, _, _, _, _, hrp⟩ | ⟨_, st2, _, _, _, _, hrec⟩
    · exact absurd (startPhase_err hsp).1 (by simp)
    · rcases resPhase_some hrp with ⟨_, ri, hri, hle⟩ | ⟨he, _⟩
      · exact ⟨item, by simp, ri, hri, hle⟩
      · simp at he
    · obtain ⟨it, hit, ri, hri, hle⟩ := ih rlen (i + 1) (endPhase st2) hrec
      exact ⟨it, by simp [hit], ri, hri, hle⟩

/-- A successful scan has validated every explicit resource index. -/
theorem scanItems_ok_resOk :
    ∀ (items : List ItemData) (rlen i : Nat) (st stF : ScanSt)
      (shs : List (Option Int)),
      scanItems rlen i st items = some (Except.ok (stF, shs)) →
      ∀ item ∈ items, ∀ ri, item.resource_index = some ri → ri < rlen := by
  intro items
  induction items with
  | nil => intro rlen i st stF shs _ item hmem; simp at hmem
  | cons item rest ih =>
    intro rlen i st stF shs h it hmem ri hri
    obtain ⟨st1, st2, sh, shs', hsp, hdp, hrp, hrec, _⟩ := scanItems_cons_ok h
    rcases List.mem_cons.mp hmem with heq | hmem2
    · subst heq
      by_contra hge
      have : resPhase rlen i it = some LayoutErr.resourceIndexOutOfRange := by
        simp [resPhase, hri, Nat.le_of_not_lt hge]
      rw [this] at hrp
      exact absurd hrp (by simp)
    · exact ih rlen (i + 1) (endPhase st2) stF shs' hrec it hmem2 ri hri

/-- A successful scan started at item 0 means item 0 carried both anchor
fields. -/
theorem scanItems_ok_anchor {rlen : Nat} {st stF : ScanSt} {item : ItemData}
    {rest : List ItemData} {shs : List (Option Int)}
    (h : scanItems rlen 0 st (item :: rest) = some (Except.ok (stF, shs))) :
    item.start_date.isSome ∧ item.resource_index.isSome := by
  obtain ⟨st1, st2, sh, shs', hsp, hdp, hrp, hrec, _⟩ := scanItems_cons_ok h
  constructor
  · cases hs : item.start_date with
    | some s => rfl
    | none => simp [startPhase, hs] at hsp
  · cases hr : item.resource_index with
    | some ri => rfl
    | none => simp [resPhase, hr] at hrp

theorem resPhase_zero_none_isSome {rlen : Nat} {item : ItemData}
    (h : resPhase rlen 0 item = none) : item.resource_index.isSome := by
  cases hr : item.resource_index with
  | some ri => rfl
  | none => simp [resPhase, hr] at h

/-- Past item 0, a scan over items whose explicit resource indices are all
in range either panics or succeeds. -/
theorem scanItems_tail_total :
    ∀ (items : List ItemData) (rlen i : Nat) (st : ScanSt),
      (∀ item ∈ items, ∀ ri, item.resource_index = some ri → ri < rlen) →
      scanItems rlen (i + 1) st items = none
      ∨ ∃ stF shs, scanItems rlen (i + 1) st items = some (Except.ok (stF, shs)) := by
  intro items
  induction items with
  | nil => intro rlen i st _; exact Or.inr ⟨st, [], rfl⟩
  | cons item rest ih =>
    intro rlen i st hin
    obtain ⟨st1, hsp⟩ := @startPhase_tail_ok i st item
    cases hdp : durPhase st1 item with
    | none => exact Or.inl (by simp [scanItems, hsp, hdp])
    | some p =>
      obtain ⟨st2, sh⟩ := p
      have hrp : resPhase rlen (i + 1) item = none :=
        resPhase_none_of (hin item (by simp)) (Or.inr (by omega))
      rcases ih rlen (i + 1) (endPhase st2)
          (fun it hit => hin it (by simp [hit])) with hnone | ⟨stF, shs, hok⟩
      · exact Or.inl (by simp [scanItems, hsp, hdp, hrp, hnone])
      · exact Or.inr ⟨stF, sh :: shs, by simp [scanItems, hsp, hdp, hrp, hok]⟩

/-- Past item 0, a scan over items containing an out-of-range explicit
resource index either panics or reports exactly that error. -/
theorem scanItems_tail_oob :
    ∀ (items : List ItemData) (rlen i : Nat) (st : ScanSt),
      (∃ item ∈ items, ∃ ri, item.resource_index = some ri ∧ rlen ≤ ri) →
      scanItems rlen (i + 1) st items = none
      ∨ scanItems rlen (i + 1) st items
          = some (Except.error LayoutErr.resourceIndexOutOfRange) := by
  intro items
  induction items with
  | nil => intro rlen i st hob; simp at hob
  | cons item rest ih =>
    intro rlen i st hob
    obtain ⟨st1, hsp⟩ := @startPhase_tail_ok i st item
    cases hdp : durPhase st1 item with
    | none => exact Or.inl (by simp [scanItems, hsp, hdp])
    | some p =>
      obtain ⟨st2, sh⟩ := p
      cases hrp : resPhase rlen (i + 1) item with
      | some e =>
        rcases resPhase_some hrp with ⟨he, _⟩ | ⟨_, _, hi⟩
        · subst he
          exact Or.inr (by simp [scanItems, hsp, hdp, hrp])
        · exact absurd hi (by simp)
      | none =>
        have hrest : ∃ it ∈ rest, ∃ ri, it.resource_index = some ri ∧ rlen ≤ ri := by
          obtain ⟨it, hmem, ri, hri, hle⟩ := hob
          rcases List.mem_cons.mp hmem with heq | hmem2
          · subst heq
            have hoob : resPhase rlen (i + 1) it
                = some LayoutErr.resourceIndexOutOfRange := by
              simp [resPhase, hri, hle]
            rw [hoob] at hrp
            exact absurd hrp (by simp)
          · exact ⟨it, hmem2, ri, hri, hle⟩
        rcases ih rlen (i + 1) (endPhase st2) hrest with hnone | herr
        · exact Or.inl (by simp [scanItems, hsp, hdp, hrp, hnone])
        · exact Or.inr (by simp [scanItems, hsp, hdp, hrp, herr])

/-! ## Claim theorems -/

/-- Claim C1 (amended): on any non-panicking run, `TooFewItems` is reported
if and only if fewer than two items were supplied; otherwise the validation
failures are detected during the single in-order scan, so the first
condition encountered wins: `MissingAnchor` (either anchor-field error) is
reported if and only if item 0 lacks a start date or a resource index;
`ResourceIndexOutOfRange` is reported if and only if item 0 carries both
anchor fields and some item carries an explicit resource index `≥
resources.length`; and when no validation condition holds a geometry model
is returned (so no partial layout accompanies a failure). -/
theorem claim1_validation (tw mw se : Rat) (c : ChartData)
    (r : Except LayoutErr RenderData)
    (h : process_chart_data tw mw se c = some r) :
    ((r = Except.error LayoutErr.tooFewItems) ↔ c.items.length < 2)
    ∧ (∀ it0 rest, c.items = it0 :: rest → ¬ c.items.length < 2 →
        ((r = Except.error LayoutErr.missingStartDate
          ∨ r = Except.error LayoutErr.missingResourceIndex) ↔
          (it0.start_date = none ∨ it0.resource_index = none)))
    ∧ (∀ it0 rest, c.items = it0 :: rest → ¬ c.items.length < 2 →
        ((r = Except.error LayoutErr.resourceIndexOutOfRange) ↔
          (it0.start_date.isSome ∧ it0.resource_index.isSome
            ∧ ∃ item ∈ c.items, ∃ ri, item.resource_index = some ri
                ∧ c.resources.length ≤ ri)))
    ∧ (∀ it0 rest, c.items = it0 :: rest → ¬ c.items.length < 2 →
        it0.start_date.isSome → it0.resource_index.isSome →
        (∀ item ∈ c.items, ∀ ri, item.resource_index = some ri
          → ri < c.resources.length) →
        ∃ g, r = Except.ok g) := by
  refine ⟨⟨?tfiF, ?tfiB⟩, ?ma, ?oor, ?okk⟩
  case tfiF =>
    intro hr
    by_contra hlen
    cases hscan : scanItems c.resources.length 0 ⟨dateMAX, dateMIN, dateMIN⟩ c.items with
    | none => rw [process_scan_none hlen hscan] at h; exact absurd h (by simp)
    | some r2 =>
      cases r2 with
      | error e =>
        have hre := process_scan_err h hlen hscan
        rw [hre] at hr
        injection hr with hr
        exact scanItems_no_tfi c.items c.resources.length 0 _ (hr ▸ hscan)
      | ok p =>
        obtain ⟨stF, shs⟩ := p
        obtain ⟨g, hg⟩ := process_scan_ok_shape h hlen hscan
        rw [hg] at hr
        exact absurd hr (by simp)
  case tfiB =>
    intro hlen
    simp only [process_chart_data, if_pos hlen] at h
    exact (Option.some_inj.mp h).symm
  case ma =>
    intro it0 rest hitems hlen
    constructor
    · intro hr
      cases hscan : scanItems c.resources.length 0 ⟨dateMAX, dateMIN, dateMIN⟩ c.items with
      | none => rw [process_scan_none hlen hscan] at h; exact absurd h (by simp)
      | some r2 =>
        cases r2 with
        | ok p =>
          obtain ⟨stF, shs⟩ := p
          obtain ⟨g, hg⟩ := process_scan_ok_shape h hlen hscan
          rcases hr with hr | hr <;> (rw [hg] at hr; exact absurd hr (by simp))
        | error e =>
          have hre := process_scan_err h hlen hscan
          have he : e = LayoutErr.missingStartDate ∨ e = LayoutErr.missingResourceIndex := by
            rcases hr with hr | hr <;> (rw [hre] at hr; injection hr with hr; simp [hr])
          rw [hitems] at hscan
          rcases scanItems_cons_err hscan with hsp | ⟨_, _, _, _, _, hrp⟩
            | ⟨_, st2, _, _, _, _, hrec⟩
          · exact Or.inl (startPhase_err hsp).2.1
          · rcases resPhase_some hrp with ⟨heq, _⟩ | ⟨_, hnone, _⟩
            · rcases he with he | he <;> (rw [he] at heq; exact absurd heq (by simp))
            · exact Or.inr hnone
          · have := scanItems_tail_err rest c.resources.length 0 _ e hrec
            rcases he with he | he <;> (rw [he] at this; exact absurd this (by simp))
    · intro hanchor
      by_cases hs0 : it0.start_date = none
      · have hscan : scanItems c.resources.length 0 ⟨dateMAX, dateMIN, dateMIN⟩ c.items
            = some (Except.error LayoutErr.missingStartDate) := by
          rw [hitems]
          simp [scanItems, startPhase, hs0]
        exact Or.inl (process_scan_err h hlen hscan)
      · have hr0 : it0.resource_index = none := by
          rcases hanchor with hcl | hcr
          · exact absurd hcl hs0
          · exact hcr
        obtain ⟨s, hs⟩ := Option.ne_none_iff_exists'.mp hs0
        obtain ⟨st1, hsp⟩ := @startPhase_some_ok 0 ⟨dateMAX, dateMIN, dateMIN⟩ _ _ hs
        cases hdp : durPhase st1 it0 with
        | none =>
          have hscan : scanItems c.resources.length 0 ⟨dateMAX, dateMIN, dateMIN⟩ c.items
              = none := by
            rw [hitems]; simp [scanItems, hsp, hdp]
          rw [process_scan_none hlen hscan] at h
          exact absurd h (by simp)
        | some p =>
          obtain ⟨st2, sh⟩ := p
          have hrp : resPhase c.resources.length 0 it0
              = some LayoutErr.missingResourceIndex := by
            simp [resPhase, hr0]
          have hscan : scanItems c.resources.length 0 ⟨dateMAX, dateMIN, dateMIN⟩ c.items
              = some (Except.error LayoutErr.missingResourceIndex) := by
            rw [hitems]; simp [scanItems, hsp, hdp, hrp]
          exact Or.inr (process_scan_err h hlen hscan)
  case oor =>
    intro it0 rest hitems hlen
    constructor
    · intro hr
      cases hscan : scanItems c.resources.length 0 ⟨dateMAX, dateMIN, dateMIN⟩ c.items with
      | none => rw [process_scan_none hlen hscan] at h; exact absurd h (by simp)
      | some r2 =>
        cases r2 with
        | ok p =>
          obtain ⟨stF, shs⟩ := p
          obtain ⟨g, hg⟩ := process_scan_ok_shape h hlen hscan
          rw [hg] at hr
          exact absurd hr (by simp)
        | error e =>
          have hre := process_scan_err h hlen hscan
          have he : e = LayoutErr.resourceIndexOutOfRange := by
            rw [hre] at hr
            exact Except.error.inj hr
          subst he
          refine ⟨?_, ?_, scanItems_err_oob c.items c.resources.length 0 _ hscan⟩
          · cases hs : it0.start_date with
            | some s => rfl
            | none =>
              have hscan2 : scanItems c.resources.length 0 ⟨dateMAX, dateMIN, dateMIN⟩ c.items
                  = some (Except.error LayoutErr.missingStartDate) := by
                rw [hitems]; simp [scanItems, startPhase, hs]
              rw [hscan2] at hscan
              injection hscan with hscan
              injection hscan with hscan
              exact absurd hscan (by simp)
          · rw [hitems] at hscan
            rcases scanItems_cons_err hscan with hsp | ⟨_, _, _, _, _, hrp⟩
              | ⟨_, st2, _, _, _, hrp, _⟩
            · exact absurd (startPhase_err hsp).1 (by simp)
            · rcases resPhase_some hrp with ⟨_, ri, hri, _⟩ | ⟨hmri, _⟩
              · simp [hri]
              · exact absurd hmri (by simp)
            · exact resPhase_zero_none_isSome hrp
    · rintro ⟨hss, hrs, hoob⟩
      obtain ⟨s, hs⟩ := Option.isSome_iff_exists.mp hss
      obtain ⟨ri0, hr0⟩ := Option.isSome_iff_exists.mp hrs
      obtain ⟨st1, hsp⟩ := @startPhase_some_ok 0 ⟨dateMAX, dateMIN, dateMIN⟩ _ _ hs
      cases hdp : durPhase st1 it0 with
      | none =>
        have hscan : scanItems c.resources.length 0 ⟨dateMAX, dateMIN, dateMIN⟩ c.items
            = none := by
          rw [hitems]; simp [scanItems, hsp, hdp]
        rw [process_scan_none hlen hscan] at h
        exact absurd h (by simp)
      | some p =>
        obtain ⟨st2, sh⟩ := p
        by_cases hge : c.resources.length ≤ ri0
        · have hrp : resPhase c.resources.length 0 it0
              = some LayoutErr.resourceIndexOutOfRange := by
            simp [resPhase, hr0, hge]
          have hscan : scanItems c.resources.length 0 ⟨dateMAX, dateMIN, dateMIN⟩ c.items
              = some (Except.error LayoutErr.resourceIndexOutOfRange) := by
            rw [hitems]; simp [scanItems, hsp, hdp, hrp]
          exact process_scan_err h hlen hscan
        · have hrp : resPhase c.resources.length 0 it0 = none := by
            simp [resPhase, hr0]
            omega
          have hrest : ∃ it ∈ rest, ∃ ri, it.resource_index = some ri
              ∧ c.resources.length ≤ ri := by
            obtain ⟨it, hmem, ri, hri, hle⟩ := hoob
            rw [hitems] at hmem
            rcases List.mem_cons.mp hmem with heq | hmem2
            · subst heq
              rw [hr0] at hri
              injection hri with hri
              omega
            · exact ⟨it, hmem2, ri, hri, hle⟩
          rcases scanItems_tail_oob rest c.resources.length 0 (endPhase st2) hrest with
            hnone | herr
          · have hscan : scanItems c.resources.length 0 ⟨dateMAX, dateMIN, dateMIN⟩ c.items
                = none := by
              rw [hitems]; simp [scanItems, hsp, hdp, hrp, hnone]
            rw [process_scan_none hlen hscan] at h
            exact absurd h (by simp)
          · have hscan : scanItems c.resources.length 0 ⟨dateMAX, dateMIN, dateMIN⟩ c.items
                = some (Except.error LayoutErr.resourceIndexOutOfRange) := by
              rw [hitems]; simp [scanItems, hsp, hdp, hrp, herr]
            exact process_scan_err h hlen hscan
  case okk =>
    intro it0 rest hitems hlen hss hrs hin
    obtain ⟨s, hs⟩ := Option.isSome_iff_exists.mp hss
    obtain ⟨st1, hsp⟩ := @startPhase_some_ok 0 ⟨dateMAX, dateMIN, dateMIN⟩ _ _ hs
    cases hdp : durPhase st1 it0 with
    | none =>
      have hscan : scanItems c.resources.length 0 ⟨dateMAX, dateMIN, dateMIN⟩ c.items
          = none := by
        rw [hitems]; simp [scanItems, hsp, hdp]
      rw [process_scan_none hlen hscan] at h
      exact absurd h (by simp)
    | some p =>
      obtain ⟨st2, sh⟩ := p
      have hrp : resPhase c.resources.length 0 it0 = none :=
        resPhase_none_of (hin it0 (by rw [hitems]; simp)) (Or.inl hrs)
      rcases scanItems_tail_total rest c.resources.length 0 (endPhase st2)
          (fun it hit => hin it (by rw [hitems]; simp [hit])) with hnone | ⟨stF, shs, hok⟩
      · have hscan : scanItems c.resources.length 0 ⟨dateMAX, dateMIN, dateMIN⟩ c.items
            = none := by
          rw [hitems]; simp [scanItems, hsp, hdp, hrp, hnone]
        rw [process_scan_none hlen hscan] at h
        exact absurd h (by simp)
      · have hscan : scanItems c.resources.length 0 ⟨dateMAX, dateMIN, dateMIN⟩ c.items
            = some (Except.ok (stF, sh :: shs)) := by
          rw [hitems]; simp [scanItems, hsp, hdp, hrp, hok]
        exact process_scan_ok_shape h hlen hscan

/-- A run that produced a geometry model equals `some (ok ...)` of its own
extracted model. -/
theorem processOk_eq {r : Option (Except LayoutErr RenderData)}
    (h : processOk r = true) : r = some (Except.ok (rdOf r)) := by
  match r with
  | some (Except.ok g) => rfl
  | some (Except.error e) => simp [processOk] at h
  | none => simp [processOk] at h

/-- Claim C1, counterexample to the claim as stated: in this schedule item
1 carries an explicit resource index that is out of range (the resource
list is empty), so the claimed equivalence demands
`ResourceIndexOutOfRange`; but item 0 also lacks a resource index and the
scan reports `MissingAnchor` (the missing-resource-index error) first. -/
theorem claim1_counterexample :
    process_chart_data 210 200 0 chartC1cex
      = some (Except.error LayoutErr.missingResourceIndex)
    ∧ (∃ item ∈ chartC1cex.items, ∃ ri, item.resource_index = some ri
        ∧ chartC1cex.resources.length ≤ ri)
    ∧ ¬ process_chart_data 210 200 0 chartC1cex
        = some (Except.error LayoutErr.resourceIndexOutOfRange) := by
  refine ⟨by decide, ?_, by decide⟩
  exact ⟨⟨"b", none, none, some 0, none⟩, by decide, 0, by decide, by decide⟩

/-- Witness for `claim1_validation` at a concrete one-item schedule. -/
theorem claim1_validation_witness :
    process_chart_data 210 200 0 chartOneItem
      = some (Except.error LayoutErr.tooFewItems)
    ∧ (((Except.error LayoutErr.tooFewItems : Except LayoutErr RenderData)
        = Except.error LayoutErr.tooFewItems) ↔ chartOneItem.items.length < 2) := by
  have h : process_chart_data 210 200 0 chartOneItem
      = some (Except.error LayoutErr.tooFewItems) := by decide
  exact ⟨h, (claim1_validation 210 200 0 chartOneItem _ h).1⟩

/-- Claim C5 (code bug): this schedule satisfies all input invariants of
spec section 3 (two items, item 0 anchored, all explicit resource indices
in range), yet the run panics (modeled as `none`): the first duration
exceeds `TimeDelta::try_days`' bound, so the `unwrap()` at line 304 of
`lib.rs` panics instead of returning a model or a declared error. -/
theorem claim5_panic_on_huge_duration :
    process_chart_data 210 200 0 chartHugeDuration = none
    ∧ ¬ chartHugeDuration.items.length < 2
    ∧ (∀ it0 ∈ chartHugeDuration.items.take 1,
        it0.start_date.isSome ∧ it0.resource_index.isSome)
    ∧ (∀ item ∈ chartHugeDuration.items, ∀ ri, item.resource_index = some ri
        → ri < chartHugeDuration.resources.length) := by
  refine ⟨by decide, by decide, by decide, by decide⟩

/-- On every successful run, each row length is its item's shadow duration
scaled by `all_items_width / num_item_days`. -/
theorem process_row_lengths {tw mw se : Rat} {c : ChartData}
    {g : RenderData} {stF : ScanSt} {shs : List (Option Int)}
    (h : process_chart_data tw mw se c = some (Except.ok g))
    (hscan : scanItems c.resources.length 0 ⟨dateMAX, dateMIN, dateMIN⟩ c.items
      = some (Except.ok (stF, shs))) :
    g.rows.map (fun r => r.length)
      = shs.map (Option.map (fun s =>
          ((s : Int) : Rat) / ((numItemDays stF : Nat) : Rat)
            * allItemsWidth mw stF)) := by
  have h1 := scanItems_shadows c.items c.resources.length 0 _ stF shs hscan
  obtain ⟨hrows, _⟩ := process_ok_fields h hscan
  have hg := rowsLoop_geom _ tw 10 _ _ _ _ 0 g.rows hrows
  have hsnd := specRowGeom_snd (c.items.zip shs) tw 10 (normStart stF)
    (numItemDays stF) (allItemsWidth mw stF) (normStart stF)
  have hlen : shs.length = c.items.length := by
    rw [h1]; exact specShadows_length c.items dateMIN
  calc g.rows.map (fun r => r.length)
      = (g.rows.map (fun r => (r.offset, r.length))).map (fun q => q.2) := by
        simp [List.map_map]
    _ = (specRowGeom tw 10 (normStart stF) (numItemDays stF)
          (allItemsWidth mw stF) (normStart stF) (c.items.zip shs)).map
            (fun q => q.2) := by rw [hg]
    _ = (c.items.zip shs).map (fun p =>
          p.2.map (fun s => ((s : Int) : Rat) / ((numItemDays stF : Nat) : Rat)
            * allItemsWidth mw stF)) := hsnd
    _ = ((c.items.zip shs).map (fun p => p.2)).map (Option.map (fun s =>
          ((s : Int) : Rat) / ((numItemDays stF : Nat) : Rat)
            * allItemsWidth mw stF)) := by simp [List.map_map]
    _ = shs.map (Option.map (fun s =>
          ((s : Int) : Rat) / ((numItemDays stF : Nat) : Rat)
            * allItemsWidth mw stF)) := by
        rw [List.map_snd_zip c.items shs (by omega)]

/-- Claim C2: on every successful run the recorded shadow durations are the
spec's weekend-adjusted durations — `d + 2` when the running anchor plus
`d` lands on Saturday, `d + 1` on Sunday, `d` otherwise, the running date
advancing by the shadow duration (`specShadows`/`weekendAdjustedDuration`)
— and downstream every row length is computed from the shadow duration,
never from the raw input duration. -/
theorem claim2_shadow_durations (tw mw se : Rat) (c : ChartData)
    (g : RenderData) (stF : ScanSt) (shs : List (Option Int))
    (h : process_chart_data tw mw se c = some (Except.ok g))
    (hscan : scanItems c.resources.length 0 ⟨dateMAX, dateMIN, dateMIN⟩ c.items
      = some (Except.ok (stF, shs))) :
    shs = specShadows dateMIN c.items
    ∧ g.rows.map (fun r => r.length)
      = shs.map (Option.map (fun s =>
          ((s : Int) : Rat) / ((numItemDays stF : Nat) : Rat)
            * allItemsWidth mw stF)) :=
  ⟨scanItems_shadows c.items c.resources.length 0 _ stF shs hscan,
    process_row_lengths h hscan⟩

/-- Witness for `claim2_shadow_durations` at the concrete Alice/Bob
schedule. -/
theorem claim2_witness :
    process_chart_data 210 200 0 chartC7
      = some (Except.ok (rdOf (process_chart_data 210 200 0 chartC7)))
    ∧ ([some 7, some 3] = specShadows dateMIN chartC7.items
      ∧ (rdOf (process_chart_data 210 200 0 chartC7)).rows.map (fun r => r.length)
        = [some 7, some 3].map (Option.map (fun s =>
            ((s : Int) : Rat)
              / ((numItemDays ⟨⟨2024, 1, 1⟩, ⟨2024, 1, 11⟩, ⟨2024, 1, 11⟩⟩ : Nat) : Rat)
              * allItemsWidth 200 ⟨⟨2024, 1, 1⟩, ⟨2024, 1, 11⟩, ⟨2024, 1, 11⟩⟩))) := by
  have h : process_chart_data 210 200 0 chartC7
      = some (Except.ok (rdOf (process_chart_data 210 200 0 chartC7))) :=
    processOk_eq (by decide)
  have hscan : scanItems chartC7.resources.length 0 ⟨dateMAX, dateMIN, dateMIN⟩
      chartC7.items
      = some (Except.ok (⟨⟨2024, 1, 1⟩, ⟨2024, 1, 11⟩, ⟨2024, 1, 11⟩⟩,
          [some 7, some 3])) := by decide
  exact ⟨h, claim2_shadow_durations 210 200 0 chartC7 _ _ _ h hscan⟩

/-- Claim C3: on every successful run the rows' offsets and lengths are
exactly the spec's row geometry (`specRowGeom`): offset
`titleColumnWidth + gutterLeft + (daysFromProjectStart / totalDays) *
totalColumnWidth` against the carried-forward current date measured from
the normalized project start, length `(shadowDays / totalDays) *
totalColumnWidth` for items with a shadow duration, the running date
advancing by the shadow duration between items. -/
theorem claim3_row_geometry (tw mw se : Rat) (c : ChartData)
    (g : RenderData) (stF : ScanSt) (shs : List (Option Int))
    (h : process_chart_data tw mw se c = some (Except.ok g))
    (hscan : scanItems c.resources.length 0 ⟨dateMAX, dateMIN, dateMIN⟩ c.items
      = some (Except.ok (stF, shs))) :
    g.rows.map (fun r => (r.offset, r.length))
      = specRowGeom tw 10 (normStart stF) (numItemDays stF)
          (allItemsWidth mw stF) (normStart stF) (c.items.zip shs) := by
  obtain ⟨hrows, _⟩ := process_ok_fields h hscan
  exact rowsLoop_geom _ tw 10 _ _ _ _ 0 g.rows hrows

/-- Witness for `claim3_row_geometry` at the concrete Alice/Bob schedule. -/
theorem claim3_witness :
    process_chart_data 210 200 0 chartC7
      = some (Except.ok (rdOf (process_chart_data 210 200 0 chartC7)))
    ∧ (rdOf (process_chart_data 210 200 0 chartC7)).rows.map
        (fun r => (r.offset, r.length))
      = specRowGeom 210 10 (normStart ⟨⟨2024, 1, 1⟩, ⟨2024, 1, 11⟩, ⟨2024, 1, 11⟩⟩)
          (numItemDays ⟨⟨2024, 1, 1⟩, ⟨2024, 1, 11⟩, ⟨2024, 1, 11⟩⟩)
          (allItemsWidth 200 ⟨⟨2024, 1, 1⟩, ⟨2024, 1, 11⟩, ⟨2024, 1, 11⟩⟩)
          (normStart ⟨⟨2024, 1, 1⟩, ⟨2024, 1, 11⟩, ⟨2024, 1, 11⟩⟩)
          (chartC7.items.zip [some 7, some 3]) := by
  have h : process_chart_data 210 200 0 chartC7
      = some (Except.ok (rdOf (process_chart_data 210 200 0 chartC7))) :=
    processOk_eq (by decide)
  have hscan : scanItems chartC7.resources.length 0 ⟨dateMAX, dateMIN, dateMIN⟩
      chartC7.items
      = some (Except.ok (⟨⟨2024, 1, 1⟩, ⟨2024, 1, 11⟩, ⟨2024, 1, 11⟩⟩,
          [some 7, some 3])) := by decide
  exact ⟨h, claim3_row_geometry 210 200 0 chartC7 _ _ _ h hscan⟩

theorem specShadows_isSome :
    ∀ (items : List ItemData) (a : NDate),
      (specShadows a items).map Option.isSome
        = items.map (fun it => it.duration.isSome) := by
  intro items
  induction items with
  | nil => intro a; rfl
  | cons item rest ih =>
    intro a
    cases hd : item.duration <;> simp [specShadows, hd, ih]

theorem specResIdx_lt :
    ∀ (items : List ItemData) (r0 rlen : Nat), r0 < rlen →
      (∀ item ∈ items, ∀ ri, item.resource_index = some ri → ri < rlen) →
      ∀ x ∈ specResIdx r0 items, x < rlen := by
  intro items
  induction items with
  | nil => intro r0 rlen _ _ x hx; simp [specResIdx] at hx
  | cons item rest ih =>
    intro r0 rlen h0 hin x hx
    simp only [specResIdx, List.mem_cons] at hx
    have hr : item.resource_index.getD r0 < rlen := by
      cases hri : item.resource_index with
      | some ri => simpa [hri] using hin item (by simp) ri hri
      | none => simpa [hri] using h0
    rcases hx with hx | hx
    · exact hx ▸ hr
    · exact ih (item.resource_index.getD r0) rlen hr
        (fun it hit => hin it (by simp [hit])) x hx

/-- Claim C10: on every successful run the geometry model contains exactly
one row per item in order; a row has a length exactly when its item has a
duration (milestones are the duration-less items); row resource indices
are the carry-forward of explicit indices, always within the resource
list; and a row's open flag is its item's `open` field defaulting to
`false`. -/
theorem claim10_rows (tw mw se : Rat) (c : ChartData)
    (g : RenderData) (stF : ScanSt) (shs : List (Option Int))
    (h : process_chart_data tw mw se c = some (Except.ok g))
    (hscan : scanItems c.resources.length 0 ⟨dateMAX, dateMIN, dateMIN⟩ c.items
      = some (Except.ok (stF, shs))) :
    g.rows.length = c.items.length
    ∧ g.rows.map (fun r => r.length.isSome)
      = c.items.map (fun it => it.duration.isSome)
    ∧ g.rows.map (fun r => r.resource_index) = specResIdx 0 c.items
    ∧ (∀ r ∈ g.rows, r.resource_index < c.resources.length)
    ∧ g.rows.map (fun r => (r.title, r.openFlag))
      = c.items.map (fun it => (it.title, it.openFlag.getD false)) := by
  obtain ⟨hrows, _, _, _, _, _, _, _, _, _, _, _, _, hlen2⟩ :=
    process_ok_fields h hscan
  have hsh := scanItems_shadows c.items c.resources.length 0 _ stF shs hscan
  have hshlen : shs.length = c.items.length := by
    rw [hsh]; exact specShadows_length c.items dateMIN
  have hled : c.items.length ≤ shs.length := by omega
  have hfst : (c.items.zip shs).map (fun p => p.1) = c.items :=
    List.map_fst_zip c.items shs hled
  have hto := rowsLoop_title_open _ tw 10 _ _ _ _ 0 g.rows hrows
  have hlens : g.rows.length = c.items.length := by
    have := congrArg List.length hto
    simp only [List.length_map, List.length_zip] at this
    omega
  refine ⟨hlens, ?_, ?_, ?_, ?_⟩
  · have hl := process_row_lengths h hscan
    calc g.rows.map (fun r => r.length.isSome)
        = (g.rows.map (fun r => r.length)).map Option.isSome := by
          simp [List.map_map]
      _ = (shs.map (Option.map (fun s =>
            ((s : Int) : Rat) / ((numItemDays stF : Nat) : Rat)
              * allItemsWidth mw stF))).map Option.isSome := by rw [hl]
      _ = shs.map Option.isSome := by simp [List.map_map]
      _ = c.items.map (fun it => it.duration.isSome) := by
          rw [hsh]; exact specShadows_isSome c.items dateMIN
  · have hres := rowsLoop_res _ tw 10 _ _ _ _ 0 g.rows hrows
    rw [hres, hfst]
  · intro r hr
    -- item 0 exists and carries an in-range explicit index
    have hinr := scanItems_ok_resOk c.items c.resources.length 0 _ stF shs hscan
    obtain ⟨it0, rest, hitems⟩ : ∃ it0 rest, c.items = it0 :: rest := by
      cases hc : c.items with
      | nil => rw [hc] at hlen2; simp at hlen2
      | cons a b => exact ⟨a, b, rfl⟩
    have hanch := scanItems_ok_anchor (hitems ▸ hscan)
    obtain ⟨ri0, hri0⟩ := Option.isSome_iff_exists.mp hanch.2
    have h0lt : 0 < c.resources.length := by
      have := hinr it0 (by rw [hitems]; simp) ri0 hri0
      omega
    have hres := rowsLoop_res _ tw 10 _ _ _ _ 0 g.rows hrows
    have hmem : r.resource_index ∈ g.rows.map (fun q => q.resource_index) :=
      List.mem_map_of_mem _ hr
    rw [hres, hfst] at hmem
    exact specResIdx_lt c.items 0 c.resources.length h0lt hinr _ hmem
  · calc g.rows.map (fun r => (r.title, r.openFlag))
        = (c.items.zip shs).map (fun p => (p.1.title, p.1.openFlag.getD false)) :=
          hto
      _ = ((c.items.zip shs).map (fun p => p.1)).map
            (fun it => (it.title, it.openFlag.getD false)) := by
          simp [List.map_map]
      _ = c.items.map (fun it => (it.title, it.openFlag.getD false)) := by
          rw [hfst]

/-- Witness for `claim10_rows` at the concrete Alice/Bob schedule. -/
theorem claim10_witness :
    process_chart_data 210 200 0 chartC7
      = some (Except.ok (rdOf (process_chart_data 210 200 0 chartC7)))
    ∧ (rdOf (process_chart_data 210 200 0 chartC7)).rows.length
      = chartC7.items.length
    ∧ (rdOf (process_chart_data 210 200 0 chartC7)).rows.map
        (fun r => r.resource_index) = specResIdx 0 chartC7.items := by
  have h : process_chart_data 210 200 0 chartC7
      = some (Except.ok (rdOf (process_chart_data 210 200 0 chartC7))) :=
    processOk_eq (by decide)
  have hscan : scanItems chartC7.resources.length 0 ⟨dateMAX, dateMIN, dateMIN⟩
      chartC7.items
      = some (Except.ok (⟨⟨2024, 1, 1⟩, ⟨2024, 1, 11⟩, ⟨2024, 1, 11⟩⟩,
          [some 7, some 3])) := by decide
  have hc := claim10_rows 210 200 0 chartC7 _ _ _ h hscan
  exact ⟨h, hc.1, hc.2.2.1⟩

theorem zip_get_eq :
    ∀ {α β : Type} (l1 : List α) (l2 : List β) (i : Nat),
      (l1.zip l2).get? i
        = (l1.get? i).bind (fun a => (l2.get? i).map (fun b => (a, b))) := by
  intro α β l1
  induction l1 with
  | nil => intro l2 i; simp
  | cons a l1 ih =>
    intro l2 i
    cases l2 with
    | nil => simp
    | cons b l2 =>
      cases i with
      | zero => simp
      | succ j => simpa using ih l2 j

/-- In the spec row geometry, a row whose item carries an explicit start
date has its offset computed from that raw date, whatever the carried
running date is. -/
theorem specRowGeom_fst_explicit :
    ∀ (pairs : List (ItemData × Option Int)) (tw gl : Rat) (sd : NDate)
      (nid : Nat) (aiw : Rat) (d0 : NDate) (j : Nat) (item : ItemData)
      (sh : Option Int) (s : NDate),
      pairs.get? j = some (item, sh) → item.start_date = some s →
      ((specRowGeom tw gl sd nid aiw d0 pairs).get? j).map (fun q => q.1)
        = some (tw + gl + (((s.toDayNum - sd.toDayNum : Int) : Rat)
            / ((nid : Nat) : Rat)) * aiw) := by
  intro pairs
  induction pairs with
  | nil => intro tw gl sd nid aiw d0 j item sh s hp; simp at hp
  | cons p rest ih =>
    intro tw gl sd nid aiw d0 j item sh s hp hs
    obtain ⟨it2, sh2⟩ := p
    cases j with
    | zero =>
      simp only [List.get?] at hp
      injection hp with hp
      have h1 : it2 = item := congrArg Prod.fst hp
      subst h1
      cases hs2 : sh2 <;> simp [specRowGeom, hs2, hs]
    | succ k =>
      simp only [List.get?] at hp
      cases hs2 : sh2 <;>
        simpa [specRowGeom, hs2] using
          ih tw gl sd nid aiw _ k item sh s hp hs

/-- Claim C6: weekend skipping applies only to the candidate project
start: the scan's final candidate is the fold that weekend-skips an
explicit start date when its raw value undercuts the running minimum
(`specProjStart`/`skipWeekendStart`, advancing Saturday by 2 days and
Sunday by 1); meanwhile the running current date — and hence the row's
x-offset in the row pass — is taken from the raw, unadjusted start date. -/
theorem claim6_weekend_start (tw mw se : Rat) (c : ChartData)
    (g : RenderData) (stF : ScanSt) (shs : List (Option Int))
    (h : process_chart_data tw mw se c = some (Except.ok g))
    (hscan : scanItems c.resources.length 0 ⟨dateMAX, dateMIN, dateMIN⟩ c.items
      = some (Except.ok (stF, shs))) :
    stF.start_date = specProjStart dateMAX c.items
    ∧ (∀ s : NDate, s.weekday = 5 → skipWeekendStart s = s.addDays 2)
    ∧ (∀ s : NDate, s.weekday = 6 → skipWeekendStart s = s.addDays 1)
    ∧ (∀ s : NDate, s.weekday ≠ 5 → s.weekday ≠ 6 → skipWeekendStart s = s)
    ∧ (∀ j item s, c.items.get? j = some item → item.start_date = some s →
        (g.rows.get? j).map (fun r => r.offset)
          = some (tw + 10 + (((s.toDayNum - (normStart stF).toDayNum : Int) : Rat)
              / ((numItemDays stF : Nat) : Rat)) * allItemsWidth mw stF)) := by
  refine ⟨scanItems_start c.items c.resources.length 0 _ stF shs hscan,
    ?_, ?_, ?_, ?_⟩
  · intro s hw; simp [skipWeekendStart, hw]
  · intro s hw; simp [skipWeekendStart, hw]
  · intro s hw5 hw6; simp [skipWeekendStart, hw5, hw6]
  · intro j item s hitem hs
    obtain ⟨hrows, _⟩ := process_ok_fields h hscan
    have hg := rowsLoop_geom _ tw 10 _ _ _ _ 0 g.rows hrows
    have hsh := scanItems_shadows c.items c.resources.length 0 _ stF shs hscan
    have hshlen : shs.length = c.items.length := by
      rw [hsh]; exact specShadows_length c.items dateMIN
    have hjlt : j < c.items.length := by
      by_contra hge
      rw [List.get?_eq_none.mpr (by omega)] at hitem
      exact absurd hitem (by simp)
    obtain ⟨sh, hshj⟩ : ∃ sh, shs.get? j = some sh := by
      cases hv : shs.get? j with
      | none =>
        have := List.get?_eq_none.mp hv
        omega
      | some sh => exact ⟨sh, rfl⟩
    have hzip : (c.items.zip shs).get? j = some (item, sh) := by
      rw [zip_get_eq, hitem, hshj]
      rfl
    have hspec := specRowGeom_fst_explicit (c.items.zip shs) tw 10 (normStart stF)
      (numItemDays stF) (allItemsWidth mw stF) (normStart stF) j item sh s hzip hs
    calc (g.rows.get? j).map (fun r => r.offset)
        = ((g.rows.map (fun r => (r.offset, r.length))).get? j).map
            (fun q => q.1) := by
          rw [List.get?_map]
          cases g.rows.get? j <;> rfl
      _ = ((specRowGeom tw 10 (normStart stF) (numItemDays stF)
            (allItemsWidth mw stF) (normStart stF) (c.items.zip shs)).get? j).map
              (fun q => q.1) := by rw [hg]
      _ = some (tw + 10 + (((s.toDayNum - (normStart stF).toDayNum : Int) : Rat)
            / ((numItemDays stF : Nat) : Rat)) * allItemsWidth mw stF) := hspec

/-- Witness for `claim6_weekend_start` at the concrete Alice/Bob
schedule. -/
theorem claim6_witness :
    process_chart_data 210 200 0 chartC7
      = some (Except.ok (rdOf (process_chart_data 210 200 0 chartC7)))
    ∧ (⟨2024, 1, 1⟩ : NDate) = specProjStart dateMAX chartC7.items
    ∧ (∀ j item s, chartC7.items.get? j = some item → item.start_date = some s →
        ((rdOf (process_chart_data 210 200 0 chartC7)).rows.get? j).map
            (fun r => r.offset)
          = some (210 + 10
              + (((s.toDayNum
                    - (normStart ⟨⟨2024, 1, 1⟩, ⟨2024, 1, 11⟩, ⟨2024, 1, 11⟩⟩).toDayNum
                    : Int) : Rat)
                  / ((numItemDays ⟨⟨2024, 1, 1⟩, ⟨2024, 1, 11⟩, ⟨2024, 1, 11⟩⟩ : Nat) : Rat))
                * allItemsWidth 200 ⟨⟨2024, 1, 1⟩, ⟨2024, 1, 11⟩, ⟨2024, 1, 11⟩⟩)) := by
  have h : process_chart_data 210 200 0 chartC7
      = some (Except.ok (rdOf (process_chart_data 210 200 0 chartC7))) :=
    processOk_eq (by decide)
  have hscan : scanItems chartC7.resources.length 0 ⟨dateMAX, dateMIN, dateMIN⟩
      chartC7.items
      = some (Except.ok (⟨⟨2024, 1, 1⟩, ⟨2024, 1, 11⟩, ⟨2024, 1, 11⟩⟩,
          [some 7, some 3])) := by decide
  have hc := claim6_weekend_start 210 200 0 chartC7 _ _ _ h hscan
  exact ⟨h, hc.1, hc.2.2.2.2⟩

theorem monthOfIdx_m_valid (n : Int) :
    1 ≤ (monthOfIdx n).m ∧ (monthOfIdx n).m ≤ 12 := by
  simp only [monthOfIdx]
  omega

/-- Claim C4: on every successful run over well-formed dates, the project
start is snapped down to the first day of its month, the project end
snapped up to the last day of its month, and the geometry model contains
exactly one column per calendar month of the inclusive normalized range,
in chronological order, the `k`-th column belonging to the `k`-th month
after the normalized start, with pixel width `maxMonthWidth *
daysInMonth(year, month) / 31`. -/
theorem claim4_columns (tw mw se : Rat) (c : ChartData)
    (g : RenderData) (stF : ScanSt) (shs : List (Option Int))
    (h : process_chart_data tw mw se c = some (Except.ok g))
    (hscan : scanItems c.resources.length 0 ⟨dateMAX, dateMIN, dateMIN⟩ c.items
      = some (Except.ok (stF, shs)))
    (hdv : ∀ item ∈ c.items, ∀ s, item.start_date = some s → s.MValid) :
    normStart stF = ⟨stF.start_date.y, stF.start_date.m, 1⟩
    ∧ normEnd stF = ⟨stF.end_date.y, stF.end_date.m,
        daysInMonthTable stF.end_date.y stF.end_date.m⟩
    ∧ g.cols.length
      = (monthIdx (normEnd stF) + 1 - monthIdx (normStart stF)).toNat
    ∧ (∀ k, k < g.cols.length →
        g.cols.get? k = some
          { width := mw * ((daysInMonthTable
                (monthOfIdx (monthIdx (normStart stF) + (k : Int))).y
                (monthOfIdx (monthIdx (normStart stF) + (k : Int))).m : Nat) : Rat)
                / 31
            month_name := monthName
              (monthOfIdx (monthIdx (normStart stF) + (k : Int))).m }) := by
  have hmv := scanItems_MValid c.items c.resources.length 0 _ stF shs
    (by refine ⟨⟨?_, ?_⟩, ⟨?_, ?_⟩, ⟨?_, ?_⟩⟩ <;> decide) hdv hscan
  obtain ⟨hms, hme, _⟩ := hmv
  have hnd : num_days_in_month stF.end_date.y stF.end_date.m
      = daysInMonthTable stF.end_date.y stF.end_date.m :=
    num_days_eq_table _ hme.1 hme.2
  have hrange : monthsOf stF = monthsRange (normStart stF) (normEnd stF) := by
    have hfd : 1 ≤ (normEnd stF).d := by
      show 1 ≤ num_days_in_month stF.end_date.y stF.end_date.m
      rw [hnd]
      have := @daysInMonthTable_pos stF.end_date.y _ hme.1 hme.2
      omega
    exact @monthsLoop_char (normStart stF) (normEnd stF) rfl
      hms.1 hms.2 hme.1 hme.2 hfd
  obtain ⟨_, hcols, _⟩ := process_ok_fields h hscan
  refine ⟨rfl, by simp [normEnd, hnd], ?_, ?_⟩
  · rw [hcols]
    simp [colsOf, hrange, monthsRange]
  · intro k hk
    rw [hcols] at hk ⊢
    simp only [colsOf, hrange, monthsRange, List.length_map, List.length_range]
      at hk
    have hmvk := monthOfIdx_m_valid (monthIdx (normStart stF) + (k : Int))
    simp only [colsOf, hrange, monthsRange, List.get?_map,
      List.get?_range hk, Option.map_some']
    rw [num_days_eq_table _ hmvk.1 hmvk.2]

/-- Witness for `claim4_columns` at the concrete Alice/Bob schedule. -/
theorem claim4_witness :
    process_chart_data 210 200 0 chartC7
      = some (Except.ok (rdOf (process_chart_data 210 200 0 chartC7)))
    ∧ (rdOf (process_chart_data 210 200 0 chartC7)).cols.length
      = (monthIdx (normEnd ⟨⟨2024, 1, 1⟩, ⟨2024, 1, 11⟩, ⟨2024, 1, 11⟩⟩) + 1
          - monthIdx (normStart ⟨⟨2024, 1, 1⟩, ⟨2024, 1, 11⟩, ⟨2024, 1, 11⟩⟩)).toNat := by
  have h : process_chart_data 210 200 0 chartC7
      = some (Except.ok (rdOf (process_chart_data 210 200 0 chartC7))) :=
    processOk_eq (by decide)
  have hscan : scanItems chartC7.resources.length 0 ⟨dateMAX, dateMIN, dateMIN⟩
      chartC7.items
      = some (Except.ok (⟨⟨2024, 1, 1⟩, ⟨2024, 1, 11⟩, ⟨2024, 1, 11⟩⟩,
          [some 7, some 3])) := by decide
  have hc := claim4_columns 210 200 0 chartC7 _ _ _ h hscan (by decide)
  exact ⟨h, hc.2.2.1⟩

/-- A successful run contains a successful scan. -/
theorem process_ok_scan {tw mw se : Rat} {c : ChartData} {g : RenderData}
    (h : process_chart_data tw mw se c = some (Except.ok g)) :
    ∃ stF shs, scanItems c.resources.length 0 ⟨dateMAX, dateMIN, dateMIN⟩ c.items
      = some (Except.ok (stF, shs)) := by
  have hlen : ¬ c.items.length < 2 := by
    intro hlt
    simp only [process_chart_data, if_pos hlt] at h
    exact absurd h (by simp)
  cases hscan : scanItems c.resources.length 0 ⟨dateMAX, dateMIN, dateMIN⟩
      c.items with
  | none =>
    rw [process_scan_none hlen hscan] at h
    exact absurd h (by simp)
  | some r2 =>
    cases r2 with
    | error e =>
      have := process_scan_err h hlen hscan
      exact absurd this (by simp)
    | ok p =>
      obtain ⟨stF, shs⟩ := p
      exact ⟨stF, shs, rfl⟩

/-- Claim C8: the layout is a pure function of the schedule, the two width
parameters and the single color seed (the one `rng.gen()` draw, modeled as
the `seed` argument): two successful runs on identical input with an
identical seed yield identical geometry/style models and identical
assembled documents; and the seed is the only source of variation — runs
with different seeds still agree on every component except the style
rules, which are the fixed base rules plus the seed-driven per-resource
rules. -/
theorem claim8_determinism (tw mw : Rat) (L : Bool) (c : ChartData)
    (s1 s2 : Rat) (g1 g2 : RenderData)
    (h1 : process_chart_data tw mw s1 c = some (Except.ok g1))
    (h2 : process_chart_data tw mw s2 c = some (Except.ok g2)) :
    (s1 = s2 → g1 = g2 ∧ render_chart L g1 = render_chart L g2)
    ∧ g1.rows = g2.rows ∧ g1.cols = g2.cols
    ∧ g1.marked_date_offset = g2.marked_date_offset
    ∧ g1.title = g2.title ∧ g1.resources = g2.resources
    ∧ g1.gutter = g2.gutter ∧ g1.row_height = g2.row_height
    ∧ g1.title_width = g2.title_width ∧ g1.max_month_width = g2.max_month_width
    ∧ g1.styles = baseStyles ++ resourceStylesGo s1 0 c.resources.length
    ∧ g2.styles = baseStyles ++ resourceStylesGo s2 0 c.resources.length := by
  obtain ⟨stF, shs, hscan⟩ := process_ok_scan h1
  obtain ⟨hr1, hc1, htw1, hmw1, hg1, hrg1, hh1, hresg1, hresh1, hres1, ht1,
    hst1, hm1, hlen1⟩ := process_ok_fields h1 hscan
  obtain ⟨hr2, hc2, htw2, hmw2, hg2, hrg2, hh2, hresg2, hresh2, hres2, ht2,
    hst2, hm2, hlen2⟩ := process_ok_fields h2 hscan
  refine ⟨?_, ?_, ?_, ?_, ?_, ?_, ?_, ?_, ?_, ?_, hst1, hst2⟩
  · intro hs
    subst hs
    rw [h1] at h2
    have hgg : g1 = g2 := Except.ok.inj (Option.some_inj.mp h2)
    exact ⟨hgg, by rw [hgg]⟩
  · rw [hr1] at hr2
    exact Option.some_inj.mp hr2
  · rw [hc1, hc2]
  · rw [hm1, hm2]
  · rw [ht1, ht2]
  · rw [hres1, hres2]
  · rw [hg1, hg2]
  · rw [hh1, hh2]
  · rw [htw1, htw2]
  · rw [hmw1, hmw2]

/-- Witness for `claim8_determinism` at the concrete Alice/Bob schedule
with seeds `0` and `1/2`. -/
theorem claim8_witness :
    process_chart_data 210 200 0 chartC7
      = some (Except.ok (rdOf (process_chart_data 210 200 0 chartC7)))
    ∧ process_chart_data 210 200 (1 / 2) chartC7
      = some (Except.ok (rdOf (process_chart_data 210 200 (1 / 2) chartC7)))
    ∧ (rdOf (process_chart_data 210 200 0 chartC7)).rows
      = (rdOf (process_chart_data 210 200 (1 / 2) chartC7)).rows
    ∧ (rdOf (process_chart_data 210 200 0 chartC7)).cols
      = (rdOf (process_chart_data 210 200 (1 / 2) chartC7)).cols := by
  have ha : process_chart_data 210 200 0 chartC7
      = some (Except.ok (rdOf (process_chart_data 210 200 0 chartC7))) :=
    processOk_eq (by decide)
  have hb : process_chart_data 210 200 (1 / 2) chartC7
      = some (Except.ok (rdOf (process_chart_data 210 200 (1 / 2) chartC7))) :=
    processOk_eq (by decide)
  have hc := claim8_determinism 210 200 false chartC7 0 (1 / 2) _ _ ha hb
  exact ⟨ha, hb, hc.2.1, hc.2.2.1⟩

theorem colLayerGo_length (chart : RenderData) (y2v : Rat) :
    ∀ (cols0 : List ColumnRenderData) (i0 : Nat),
      (colLayerGo chart y2v i0 cols0).length = 2 * cols0.length := by
  intro cols0
  induction cols0 with
  | nil => intro i0; rfl
  | cons col rest ih =>
    intro i0
    simp only [colLayerGo, colNodes, List.length_append, List.length_cons,
      List.length_nil, ih]
    omega

theorem colLayerGo_get (chart : RenderData) (y2v : Rat) :
    ∀ (cols0 : List ColumnRenderData) (i0 k : Nat) (hk : k < cols0.length),
      (colLayerGo chart y2v i0 cols0).get? (2 * k)
        = some (SvgNode.textNode "heading"
            (colLeftEdge chart (i0 + k) + chart.max_month_width / 2)
            (colNameY chart) ((cols0.get ⟨k, hk⟩).month_name))
      ∧ (colLayerGo chart y2v i0 cols0).get? (2 * k + 1)
        = some (SvgNode.lineNode "inner-lines" (colLeftEdge chart (i0 + k))
            chart.gutter.top (colLeftEdge chart (i0 + k)) y2v) := by
  intro cols0
  induction cols0 with
  | nil => intro i0 k hk; simp at hk
  | cons col rest ih =>
    intro i0 k hk
    cases k with
    | zero => simp [colLayerGo, colNodes]
    | succ j =>
      have hj : j < rest.length := by simpa using hk
      have := ih (i0 + 1) j hj
      have h2 : 2 * (j + 1) = 2 * j + 2 := by omega
      have h3 : i0 + 1 + j = i0 + (j + 1) := by omega
      constructor
      · rw [h2]
        simpa [colLayerGo, colNodes, h3] using this.1
      · rw [h2]
        simpa [colLayerGo, colNodes, h3] using this.2

/-- Claim C9 (amended): in the assembled document's column layer, column
`i`'s month label is placed at the column's left edge plus
`max_month_width / 2` — half the configured maximum month width, not half
the column's own pixel width — and the column's vertical divider stands at
the column's left edge. -/
theorem claim9_column_layer (L : Bool) (chart : RenderData) (i : Nat)
    (hi : i < chart.cols.length) :
    (render_chart L chart).colLayer.get? (2 * i)
      = some (SvgNode.textNode "heading"
          (colLeftEdge chart i + chart.max_month_width / 2) (colNameY chart)
          ((chart.cols.get ⟨i, hi⟩).month_name))
    ∧ (render_chart L chart).colLayer.get? (2 * i + 1)
      = some (SvgNode.lineNode "inner-lines" (colLeftEdge chart i)
          chart.gutter.top (colLeftEdge chart i)
          (chart.gutter.top + ((chart.rows.length : Nat) : Rat)
            * chart.row_height)) := by
  have hlayer : (render_chart L chart).colLayer
      = colLayer chart (chart.gutter.top + ((chart.rows.length : Nat) : Rat)
          * chart.row_height) := rfl
  have hgo := colLayerGo_get chart
    (chart.gutter.top + ((chart.rows.length : Nat) : Rat) * chart.row_height)
    chart.cols 0 i hi
  have hlen := colLayerGo_length chart
    (chart.gutter.top + ((chart.rows.length : Nat) : Rat) * chart.row_height)
    chart.cols 0
  rw [hlayer]
  unfold colLayer
  constructor
  · rw [List.get?_append (by omega)]
    simpa using hgo.1
  · rw [List.get?_append (by omega)]
    simpa using hgo.2

/-- Claim C9, counterexample to the claim as stated: for the
February-2024 schedule the single column's pixel width is `5800/31`
(29 days out of 31), its left edge is at `220`, but the month label is
placed at `320 = 220 + 200/2` — half of `max_month_width` away — which is
not the column's left edge plus half of the column's own width. -/
theorem claim9_counterexample :
    processOk (process_chart_data 210 200 0 chartFeb) = true
    ∧ (rdOf (process_chart_data 210 200 0 chartFeb)).cols
      = [⟨5800 / 31, "Feb"⟩]
    ∧ (render_chart false
          (rdOf (process_chart_data 210 200 0 chartFeb))).colLayer.get? 0
      = some (SvgNode.textNode "heading" 320 60 "Feb")
    ∧ colLeftEdge (rdOf (process_chart_data 210 200 0 chartFeb)) 0 = 220
    ∧ ¬ ((320 : Rat) = 220 + (5800 / 31) / 2) := by
  have hok : processOk (process_chart_data 210 200 0 chartFeb) = true := by decide
  have h : process_chart_data 210 200 0 chartFeb
      = some (Except.ok (rdOf (process_chart_data 210 200 0 chartFeb))) :=
    processOk_eq hok
  have hscan : scanItems chartFeb.resources.length 0 ⟨dateMAX, dateMIN, dateMIN⟩
      chartFeb.items
      = some (Except.ok (⟨⟨2024, 2, 1⟩, ⟨2024, 2, 5⟩, ⟨2024, 2, 5⟩⟩,
          [some 1, some 3])) := by decide
  obtain ⟨_, hcols, _, _, hg, hrg, hrh, _, _, _, _, _, _, _⟩ :=
    process_ok_fields h hscan
  have hm : monthsOf (⟨⟨2024, 2, 1⟩, ⟨2024, 2, 5⟩, ⟨2024, 2, 5⟩⟩ : ScanSt)
      = [⟨2024, 2, 1⟩] := by decide
  have hnd : num_days_in_month 2024 2 = 29 := by decide
  have hcols2 : (rdOf (process_chart_data 210 200 0 chartFeb)).cols
      = [⟨5800 / 31, "Feb"⟩] := by
    rw [hcols]
    simp only [colsOf, hm, List.map_cons, List.map_nil, hnd]
    norm_num [monthName]
  have htw : (rdOf (process_chart_data 210 200 0 chartFeb)).title_width = 210 :=
    (process_ok_fields h hscan).2.2.1
  have hmw : (rdOf (process_chart_data 210 200 0 chartFeb)).max_month_width
      = 200 := (process_ok_fields h hscan).2.2.2.1
  have hedge : colLeftEdge (rdOf (process_chart_data 210 200 0 chartFeb)) 0
      = 220 := by
    simp [colLeftEdge, hg, htw]
    norm_num
  refine ⟨hok, hcols2, ?_, hedge, by norm_num⟩
  have hi0 : 0 < (rdOf (process_chart_data 210 200 0 chartFeb)).cols.length := by
    rw [hcols2]; decide
  have h9 := (claim9_column_layer false
    (rdOf (process_chart_data 210 200 0 chartFeb)) 0 hi0).1
  rw [show 2 * 0 = 0 by rfl] at h9
  rw [h9]
  have hname : ((rdOf (process_chart_data 210 200 0 chartFeb)).cols.get
      ⟨0, hi0⟩).month_name = "Feb" := by
    have hx : (rdOf (process_chart_data 210 200 0 chartFeb)).cols.get? 0
        = some (⟨5800 / 31, "Feb"⟩ : ColumnRenderData) := by rw [hcols2]; rfl
    rw [List.get?_eq_get hi0] at hx
    rw [Option.some_inj.mp hx]
  rw [hname]
  simp only [Option.some_inj, SvgNode.textNode.injEq, colNameY, hedge, hmw,
    hg, hrg, hrh]
  norm_num

/-- Witness for `claim9_column_layer` at a concrete one-column model. -/
theorem claim9_witness :
    0 < rdC9w.cols.length
    ∧ ((render_chart false rdC9w).colLayer.get? (2 * 0)
        = some (SvgNode.textNode "heading"
            (colLeftEdge rdC9w 0 + rdC9w.max_month_width / 2) (colNameY rdC9w)
            ((rdC9w.cols.get ⟨0, by decide⟩).month_name))
      ∧ (render_chart false rdC9w).colLayer.get? (2 * 0 + 1)
        = some (SvgNode.lineNode "inner-lines" (colLeftEdge rdC9w 0)
            rdC9w.gutter.top (colLeftEdge rdC9w 0)
            (rdC9w.gutter.top + ((rdC9w.rows.length : Nat) : Rat)
              * rdC9w.row_height))) :=
  ⟨by decide, claim9_column_layer false rdC9w 0 (by decide)⟩

/-- Claim C7: for the concrete Alice/Bob schedule (A starts Monday
2024-01-01 with duration 5 landing on Saturday Jan 6, so shadow duration
7; B has duration 3 with shadow duration 3), for any configuration the
layout has exactly one column of width `maxMonthWidth`, row A at offset
`titleWidth + 10` with length `(7/31) * maxMonthWidth`, and row B at
offset `(titleWidth + 10) + (7/31) * maxMonthWidth` — A's offset plus A's
length — with length `(3/31) * maxMonthWidth`. -/
theorem claim7_concrete_scenario (tw mw se : Rat) :
    process_chart_data tw mw se chartC7 = some (Except.ok
      { title := "t"
        gutter := ⟨10, 80, 10, 10⟩
        row_gutter := ⟨5, 5, 5, 5⟩
        row_height := 30
        resource_gutter := ⟨10, 10, 10, 10⟩
        resource_height := 40
        marked_date_offset := none
        title_width := tw
        max_month_width := mw
        rect_corner_radius := 3
        styles := baseStyles ++ resourceStylesGo se 0 2
        cols := [⟨mw, "Jan"⟩]
        rows := [⟨"A", 0, tw + 10, some (7 * mw / 31), false⟩,
                 ⟨"B", 1, (tw + 10) + 7 * mw / 31, some (3 * mw / 31), false⟩]
        resources := ["Alice", "Bob"] })
    ∧ (scanOf chartC7).2 = [some 7, some 3] := by
  have hif : ¬ (chartC7.items.length < 2) := by decide
  have hscan : scanItems chartC7.resources.length 0 ⟨dateMAX, dateMIN, dateMIN⟩
      chartC7.items
      = some (Except.ok (⟨⟨2024, 1, 1⟩, ⟨2024, 1, 11⟩, ⟨2024, 1, 11⟩⟩,
          [some 7, some 3])) := by decide
  have hm : monthsOf (⟨⟨2024, 1, 1⟩, ⟨2024, 1, 11⟩, ⟨2024, 1, 11⟩⟩ : ScanSt)
      = [⟨2024, 1, 1⟩] := by decide
  have hnd : num_days_in_month 2024 1 = 31 := by decide
  have hnid : numItemDays (⟨⟨2024, 1, 1⟩, ⟨2024, 1, 11⟩, ⟨2024, 1, 11⟩⟩ : ScanSt)
      = 31 := by decide
  have hcols : colsOf mw (⟨⟨2024, 1, 1⟩, ⟨2024, 1, 11⟩, ⟨2024, 1, 11⟩⟩ : ScanSt)
      = [⟨mw, "Jan"⟩] := by
    simp only [colsOf, hm, List.map_cons, List.map_nil, hnd]
    have : mw * ((31 : Nat) : Rat) / 31 = mw := by
      push_cast
      rw [mul_div_assoc]
      norm_num
    rw [this]
    rfl
  have haiw : allItemsWidth mw (⟨⟨2024, 1, 1⟩, ⟨2024, 1, 11⟩, ⟨2024, 1, 11⟩⟩ : ScanSt)
      = mw := by
    simp [allItemsWidth, hcols]
  have d2 : NDate.addDays ⟨2024, 1, 1⟩ 7 = ⟨2024, 1, 8⟩ := by decide
  have htry7 : tryDays 7 = some 7 := by decide
  have htry3 : tryDays 3 = some 3 := by decide
  have dn1 : NDate.toDayNum ⟨2024, 1, 1⟩ = 19723 := by decide
  have dn8 : NDate.toDayNum ⟨2024, 1, 8⟩ = 19730 := by decide
  have hrows : rowsLoop tw 10 ⟨2024, 1, 1⟩ 31 mw ⟨2024, 1, 1⟩ 0
      (chartC7.items.zip [some 7, some 3])
      = some [⟨"A", 0, tw + 10, some (7 * mw / 31), false⟩,
              ⟨"B", 1, (tw + 10) + 7 * mw / 31, some (3 * mw / 31), false⟩] := by
    simp only [chartC7, List.zip_cons_cons, List.zip_nil_right, rowsLoop,
      rowAdvance, htry7, htry3, Option.map_some', Option.getD_some,
      Option.getD_none, d2, dn1, dn8]
    norm_num
    first
    | exact ⟨True.intro, True.intro⟩
    | (constructor <;> ring)
  simp only [process_chart_data, if_neg hif, hscan]
  refine ⟨?_, by decide⟩
  show (match rowsLoop tw 10 (normStart ⟨⟨2024, 1, 1⟩, ⟨2024, 1, 11⟩, ⟨2024, 1, 11⟩⟩)
      (numItemDays ⟨⟨2024, 1, 1⟩, ⟨2024, 1, 11⟩, ⟨2024, 1, 11⟩⟩)
      (allItemsWidth mw ⟨⟨2024, 1, 1⟩, ⟨2024, 1, 11⟩, ⟨2024, 1, 11⟩⟩)
      (normStart ⟨⟨2024, 1, 1⟩, ⟨2024, 1, 11⟩, ⟨2024, 1, 11⟩⟩) 0
      (chartC7.items.zip [some 7, some 3]) with
    | none => none
    | some rows => _) = _
  rw [show normStart (⟨⟨2024, 1, 1⟩, ⟨2024, 1, 11⟩, ⟨2024, 1, 11⟩⟩ : ScanSt)
    = ⟨2024, 1, 1⟩ from rfl, hnid, haiw, hrows]
  simp only [colsOf, hm, hcols, Option.some_inj, Except.ok.injEq,
    RenderData.mk.injEq, Gutter.height]
  norm_num [chartC7]
  refine ⟨⟨?_, rfl⟩, by ring, ?_, by ring⟩
  · rw [hnd]
    push_cast
    rw [mul_div_assoc]
    norm_num
  · rw [d2, dn8, dn1]
    push_cast
    ring

end GanttChart
